import Mathlib

/-!
Verification of the SoapyLMS7 streaming data path (SoapyLMS7/Streaming.cpp).

The development shallowly embeds the streaming core:

* the buffer fast-forward primitive (`fastForward`, Streaming.cpp 324-332),
* the multi-channel alignment engine (`alignBody`/`alignLoop`,
  Streaming.cpp 334-398),
* the stream read path (`readStream`, Streaming.cpp 403-483),
* the stream write path (`writeStream`, Streaming.cpp 485-522),
* the status poll path (`statusRun`, Streaming.cpp 524-577),
* the calibration-set lifecycle of `setupStream`/`activateStream`
  (Streaming.cpp 162-166 and 230-238, 269-290),
* the latency and MTU configuration of `setupStream`
  (Streaming.cpp 112, 138-149 and 152-159).

Machine integers: the hardware timestamps are C++ `uint64_t`; they are
modelled as `Nat` with subtraction performed modulo `2 ^ 64` (`u64sub`).
Sample buffers are modelled at element granularity (the C code moves
`elemSize`-byte cells; all offsets in the source are whole multiples of
`elemSize`, so byte-level and element-level moves coincide), as total
functions `Nat → Nat` whose value at an index is the hardware tick of the
sample stored there.  The transport (`IConnection`) is external to the
repository and is modelled at its interface boundary: per-channel
schedules of read results, per-channel write-result functions, and
per-round status events.
-/

namespace LimeStreaming

/-! ### SoapySDR constants (SoapySDR/Errors.h, Constants.h) -/

/-- Error code `SOAPY_SDR_TIMEOUT` (-1). -/
def SOAPY_SDR_TIMEOUT : Int := -1

/-- Error code `SOAPY_SDR_STREAM_ERROR` (-2). -/
def SOAPY_SDR_STREAM_ERROR : Int := -2

/-- Error code `SOAPY_SDR_CORRUPTION` (-3). -/
def SOAPY_SDR_CORRUPTION : Int := -3

/-- Error code `SOAPY_SDR_OVERFLOW` (-4). -/
def SOAPY_SDR_OVERFLOW : Int := -4

/-- Error code `SOAPY_SDR_NOT_SUPPORTED` (-5). -/
def SOAPY_SDR_NOT_SUPPORTED : Int := -5

/-- Error code `SOAPY_SDR_TIME_ERROR` (-6). -/
def SOAPY_SDR_TIME_ERROR : Int := -6

/-- Direction constant `SOAPY_SDR_TX` (0). -/
def SOAPY_SDR_TX : Nat := 0

/-- Direction constant `SOAPY_SDR_RX` (1). -/
def SOAPY_SDR_RX : Nat := 1

/-! ### Stream metadata and flags -/

/-- Metadata block `lime::StreamMetadata` as used by Streaming.cpp:
hardware tick of the first sample of a transfer plus the out-of-band
flags. -/
structure StreamMetadata where
  timestamp : Nat
  hasTimestamp : Bool
  endOfBurst : Bool
  lateTimestamp : Bool
  packetDropped : Bool
  deriving Repr, DecidableEq

/-- SoapySDR stream flag word, restricted to the bits Streaming.cpp
reads or writes: `SOAPY_SDR_HAS_TIME` (1 shl 2), `SOAPY_SDR_END_BURST`
(1 shl 1), `SOAPY_SDR_ONE_PACKET` (1 shl 4). -/
structure SFlags where
  hasTime : Bool
  endBurst : Bool
  onePacket : Bool
  deriving Repr, DecidableEq

/-- Flag word with every modelled bit clear. -/
def noFlags : SFlags := ⟨false, false, false⟩

/-! ### Buffers and the fast-forward primitive -/

/-- Sample buffer at element granularity: index of an element cell to
the hardware tick of the sample stored there. -/
abbrev Buff := Nat → Nat

/-- Default buffer (reads as tick 0 everywhere); only accessed through
in-range indices in the proofs. -/
def bdef : Buff := fun _ => 0

/-- Unsigned 64-bit subtraction `a - b` as computed on C++ `uint64_t`
operands. -/
def u64sub (a b : Nat) : Nat :=
  (2 ^ 64 + a % 2 ^ 64 - b % 2 ^ 64) % 2 ^ 64

/-- Fast-forward primitive (Streaming.cpp 324-332): pop
`min(desiredHeadTime - oldHeadTime, numWritten)` elements from the front
of the buffer and shift the remainder to the start (`memmove`); cells at
or past the moved region keep their previous contents.  Returns the new
buffer contents and the new fill count (the C code updates `numWritten`
in place). -/
def fastForward (buff : Buff) (numWritten : Nat)
    (oldHeadTime desiredHeadTime : Nat) : Buff × Nat :=
  let numPop := min (u64sub desiredHeadTime oldHeadTime) numWritten
  let numMove := numWritten - numPop
  (fun m => if m < numMove then buff (m + numPop) else buff m,
   numWritten - numPop)

theorem u64sub_eq_sub {a b : Nat} (hba : b ≤ a) (ha : a < 2 ^ 64) :
    u64sub a b = a - b := by
  have hb : b < 2 ^ 64 := lt_of_le_of_lt hba ha
  unfold u64sub
  rw [Nat.mod_eq_of_lt ha, Nat.mod_eq_of_lt hb]
  omega

/-- C4: the fast-forward primitive removes exactly
`min(delta, fillCount)` elements from the front (never more than are
present), shifts the remaining elements to the start of the buffer, and
is the identity when the delta is zero. -/
theorem c4_fastForward (buff : Buff) (numWritten oldHeadTime desiredHeadTime : Nat)
    (hle : oldHeadTime ≤ desiredHeadTime) (hlt : desiredHeadTime < 2 ^ 64) :
    (fastForward buff numWritten oldHeadTime desiredHeadTime).2
      = numWritten - min (desiredHeadTime - oldHeadTime) numWritten
    ∧ min (desiredHeadTime - oldHeadTime) numWritten ≤ numWritten
    ∧ (∀ m, m < (fastForward buff numWritten oldHeadTime desiredHeadTime).2 →
        (fastForward buff numWritten oldHeadTime desiredHeadTime).1 m
          = buff (m + min (desiredHeadTime - oldHeadTime) numWritten))
    ∧ (desiredHeadTime = oldHeadTime →
        fastForward buff numWritten oldHeadTime desiredHeadTime = (buff, numWritten)) := by
  have hsub : u64sub desiredHeadTime oldHeadTime = desiredHeadTime - oldHeadTime :=
    u64sub_eq_sub hle hlt
  refine ⟨?_, ?_, ?_, ?_⟩
  · simp only [fastForward, hsub]
  · exact min_le_right _ _
  · intro m hm
    simp only [fastForward, hsub] at hm ⊢
    rw [if_pos]
    omega
  · intro heq
    subst heq
    simp only [fastForward, hsub, Nat.sub_self, Nat.zero_min, Nat.min_self]
    refine Prod.ext ?_ ?_
    · funext m
      simp only
      split <;> simp
    · simp

/-- Witness for C4 at a concrete input: buffer holding ticks 10..14,
fill count 5, fast-forwarded from head time 10 to head time 12. -/
theorem c4_fastForward_witness :
    (10 : Nat) ≤ 12 ∧ (12 : Nat) < 2 ^ 64 ∧
    (fastForward (fun m => 10 + m) 5 10 12).2 = 5 - min (12 - 10) 5 ∧
    (fastForward (fun m => 10 + m) 5 10 12).1 0 = 10 + (0 + min (12 - 10) 5) := by
  have h := c4_fastForward (fun m => 10 + m) 5 10 12 (by norm_num) (by norm_num)
  refine ⟨by norm_num, by norm_num, h.1, ?_⟩
  have h0 : (0 : Nat) < (fastForward (fun m => 10 + m) 5 10 12).2 := by
    rw [h.1]; norm_num
  exact h.2.2.1 0 h0

/-! ### setupStream: performance latency (Streaming.cpp 112, 138-149)

The float `config.performanceLatency` is modelled over `ℚ`; none of the
operations involved (constants 0.5/0/1, comparison clamping, parsing of
the caller argument, modelled as an already-parsed rational) depends on
binary floating-point rounding. -/

/-- Clamp of the caller-supplied latency argument to [0,1]
(Streaming.cpp 142-145). -/
def clampLatency (l : ℚ) : ℚ :=
  if l < 0 then 0 else if 1 < l then 1 else l

/-- Value of `config.performanceLatency` as it stands when
`SetupStream` is called, for each channel of the setup loop
(Streaming.cpp 112, 139-146, 149): the default 0.5, replaced by the
clamped caller `latency` argument when present, then unconditionally
overwritten with 0.0 by the `//SID` edit at line 149. -/
def configuredLatency (latencyArg : Option ℚ) : ℚ :=
  let l0 : ℚ := 1 / 2
  let l1 : ℚ :=
    match latencyArg with
    | some l => clampLatency l
    | none => l0
  let l2 : ℚ := 0
  l2

/-- C8: the code does not honour the caller's latency argument.  With a
caller-supplied latency of 7/10 the clamp leaves it at 7/10, but the
value actually passed to the transport is the unconditional override 0,
not the clamped caller value. -/
theorem c8_latency_override :
    configuredLatency (some (7 / 10)) = 0
    ∧ clampLatency (7 / 10) = 7 / 10
    ∧ configuredLatency (some (7 / 10)) ≠ clampLatency (7 / 10) := by
  refine ⟨rfl, ?_, ?_⟩
  · unfold clampLatency
    norm_num
  · unfold configuredLatency clampLatency
    norm_num

/-! ### setupStream: element MTU (Streaming.cpp 152-159, 188-193) -/

/-- Stream handle state `IConnectionStream` (Streaming.cpp 26-39).  The
vector `streamID` is kept abstract as its length `nChans`; the per-call
transport schedules are passed alongside where needed. -/
structure IConnectionStream where
  nChans : Nat
  direction : Nat
  elemSize : Nat
  elemMTU : Nat
  enabled : Bool
  hasCmd : Bool
  flags : SFlags
  timeNs : Int
  numElems : Nat
  deriving Repr, DecidableEq

/-- Value of `stream->elemMTU` after the setup loop, given the
transport-reported stream size of each configured channel in loop
order: each iteration executes `stream->elemMTU = GetStreamSize(streamID)`
(Streaming.cpp 158), overwriting the previous value; `none` when the
loop body never runs. -/
def setupElemMTU (sizes : List Nat) : Option Nat :=
  sizes.foldl (fun _ s => some s) none

/-- Accessor `getStreamMTU` (Streaming.cpp 188-193). -/
def getStreamMTU (ic : IConnectionStream) : Nat := ic.elemMTU

theorem foldl_some_eq_getLast (sizes : List Nat) (a : Option Nat) :
    sizes.foldl (fun _ x => some x) a = sizes.getLast?.elim a some := by
  induction sizes generalizing a with
  | nil => rfl
  | cons s rest ih =>
    rw [List.foldl_cons, ih (some s)]
    cases rest with
    | nil => rfl
    | cons b t => rfl

/-- C9 counterexample: with two channels whose transport-reported
stream sizes are 4 and 8, the handle's `elemMTU` is 8 (the last
channel's size), not 4 (channel 0's size), so for multi-channel setup
channel 0 is not the authoritative source of `getStreamMTU`. -/
theorem c9_mtu_counterexample :
    setupElemMTU [4, 8] = some 8 ∧ setupElemMTU [4, 8] ≠ some 4 := by
  refine ⟨rfl, ?_⟩
  intro h
  simp [setupElemMTU] at h

/-- C9 (amended): the handle's `elemMTU` — the value `getStreamMTU`
returns — equals the transport-reported stream size of the LAST
configured channel (the final element of the reported-size list), so it
agrees with channel 0 exactly when the first and last reported sizes
coincide, in particular for single-channel streams. -/
theorem c9_mtu_last_channel (sizes : List Nat) (ic : IConnectionStream) :
    setupElemMTU sizes = sizes.getLast?
    ∧ getStreamMTU ic = ic.elemMTU := by
  refine ⟨?_, rfl⟩
  rw [setupElemMTU, foldl_some_eq_getLast]
  cases sizes.getLast? with
  | none => rfl
  | some x => rfl

/-! ### writeStream (Streaming.cpp 485-522)

The transport's `WriteStream` is modelled per channel as a function
from the requested element count to the returned status (elements
written, 0 for timeout, negative for error); one `writeStream` call
writes each channel at most once.  Alongside the returned status the
embedding records the element count requested from each channel
actually written, in order. -/

/-- Loop over channels 1..N-1 (Streaming.cpp 510-518): each is asked to
write exactly `s0.toNat` elements (the channel-0 count) and must report
exactly `s0`; the first mismatch aborts with `SOAPY_SDR_CORRUPTION`.
Returns the final status and the requested counts issued. -/
def writeRest (s0 : Int) : List (Nat → Int) → Int × List Nat
  | [] => (s0, [])
  | w :: ws =>
    if w s0.toNat ≠ s0 then (SOAPY_SDR_CORRUPTION, [s0.toNat])
    else
      let p := writeRest s0 ws
      (p.1, s0.toNat :: p.2)

/-- The write path (Streaming.cpp 485-522): channel 0 is written first
with the caller's `numElems`; 0 means timeout and a negative status a
stream error; otherwise channel 0's count is authoritative and the
subsequent channels are driven by `writeRest`.  (The stream handle
always carries at least one channel; the empty case is vacuous and
mapped to a stream error.) -/
def writeStream (wfuns : List (Nat → Int)) (numElems : Nat) : Int × List Nat :=
  match wfuns with
  | [] => (SOAPY_SDR_STREAM_ERROR, [])
  | w0 :: rest =>
    let s0 := w0 numElems
    if s0 = 0 then (SOAPY_SDR_TIMEOUT, [numElems])
    else if s0 < 0 then (SOAPY_SDR_STREAM_ERROR, [numElems])
    else
      let p := writeRest s0 rest
      (p.1, numElems :: p.2)

theorem writeRest_spec (n : Nat) (ws : List (Nat → Int)) :
    ((∀ w ∈ ws, w n = Int.ofNat n) →
        writeRest (Int.ofNat n) ws = (Int.ofNat n, List.replicate ws.length n))
    ∧ ((writeRest (Int.ofNat n) ws).1 = Int.ofNat n
        ∨ (writeRest (Int.ofNat n) ws).1 = SOAPY_SDR_CORRUPTION)
    ∧ (∀ q ∈ (writeRest (Int.ofNat n) ws).2, q = n)
    ∧ ((writeRest (Int.ofNat n) ws).1 = Int.ofNat n ↔ ∀ w ∈ ws, w n = Int.ofNat n) := by
  induction ws with
  | nil =>
    refine ⟨fun _ => rfl, Or.inl rfl, by simp [writeRest], ?_⟩
    simp [writeRest]
  | cons w ws ih =>
    by_cases hw : w (Int.ofNat n).toNat = Int.ofNat n
    · have hstep : writeRest (Int.ofNat n) (w :: ws)
          = ((writeRest (Int.ofNat n) ws).1, (Int.ofNat n).toNat :: (writeRest (Int.ofNat n) ws).2) := by
        simp only [writeRest]
        rw [if_neg (not_not_intro hw)]
      have htn : (Int.ofNat n).toNat = n := rfl
      refine ⟨?_, ?_, ?_, ?_⟩
      · intro hall
        rw [hstep, ih.1 (fun v hv => hall v (List.mem_cons_of_mem w hv))]
        simp [htn, List.replicate]
      · rw [hstep]; exact ih.2.1
      · rw [hstep]
        intro q hq
        rcases List.mem_cons.mp hq with h | h
        · rw [h, htn]
        · exact ih.2.2.1 q h
      · rw [hstep]
        constructor
        · intro h1 v hv
          rcases List.mem_cons.mp hv with h | h
          · rw [h, ← htn]; exact hw
          · exact (ih.2.2.2.mp h1) v h
        · intro hall
          exact ih.2.2.2.mpr (fun v hv => hall v (List.mem_cons_of_mem w hv))
    · have hstep : writeRest (Int.ofNat n) (w :: ws)
          = (SOAPY_SDR_CORRUPTION, [(Int.ofNat n).toNat]) := by
        simp only [writeRest]
        rw [if_pos hw]
      refine ⟨?_, ?_, ?_, ?_⟩
      · intro hall
        exact absurd (hall w (List.mem_cons_self w ws)) (by simpa using hw)
      · rw [hstep]; exact Or.inr rfl
      · rw [hstep]; intro q hq; simpa using hq
      · rw [hstep]
        constructor
        · intro h1
          simp only [SOAPY_SDR_CORRUPTION, Int.ofNat_eq_coe] at h1
          omega
        · intro hall
          exact absurd (hall w (List.mem_cons_self w ws)) (by simpa using hw)

/-- C6: when channel 0's write succeeds with count `n > 0`, every
subsequent channel is asked to write exactly `n` elements; the call
returns `n` exactly when every subsequent channel reports exactly `n`,
and otherwise returns `SOAPY_SDR_CORRUPTION` — never a short count or
any other status. -/
theorem c6_writeStream (w0 : Nat → Int) (rest : List (Nat → Int))
    (numElems n : Nat) (h0 : w0 numElems = Int.ofNat n) (hn : 0 < n) :
    (∀ q ∈ (writeStream (w0 :: rest) numElems).2.tail, q = n)
    ∧ ((writeStream (w0 :: rest) numElems).1 = Int.ofNat n
        ∨ (writeStream (w0 :: rest) numElems).1 = SOAPY_SDR_CORRUPTION)
    ∧ ((writeStream (w0 :: rest) numElems).1 = Int.ofNat n
        ↔ ∀ w ∈ rest, w n = Int.ofNat n)
    ∧ ((∀ w ∈ rest, w n = Int.ofNat n) →
        writeStream (w0 :: rest) numElems
          = (Int.ofNat n, numElems :: List.replicate rest.length n)) := by
  have hne : (Int.ofNat n : Int) ≠ 0 := by
    simp only [ne_eq, Int.ofNat_eq_coe, Nat.cast_eq_zero]
    omega
  have hnn : ¬ (Int.ofNat n : Int) < 0 := by
    simp only [not_lt, Int.ofNat_eq_coe]
    positivity
  have hstep : writeStream (w0 :: rest) numElems
      = ((writeRest (Int.ofNat n) rest).1, numElems :: (writeRest (Int.ofNat n) rest).2) := by
    simp only [writeStream, h0]
    rw [if_neg hne, if_neg hnn]
  have hs := writeRest_spec n rest
  refine ⟨?_, ?_, ?_, ?_⟩
  · rw [hstep]
    exact hs.2.2.1
  · rw [hstep]; exact hs.2.1
  · rw [hstep]; exact hs.2.2.2
  · intro hall
    rw [hstep, (hs.1 hall)]

/-- Witness for C6 at a concrete input: two channels, channel 0
accepting 64 of the requested 64 elements and channel 1 also accepting
exactly 64. -/
theorem c6_writeStream_witness :
    ((fun k => Int.ofNat k) : Nat → Int) 64 = Int.ofNat 64 ∧ (0 : Nat) < 64 ∧
    ((writeStream [fun k => Int.ofNat k, fun _ => Int.ofNat 64] 64).1 = Int.ofNat 64
      ↔ ∀ w ∈ ([fun _ => Int.ofNat 64] : List (Nat → Int)), w 64 = Int.ofNat 64) := by
  refine ⟨rfl, by norm_num, ?_⟩
  exact (c6_writeStream (fun k => Int.ofNat k) [fun _ => Int.ofNat 64] 64 64 rfl
    (by norm_num)).2.2.1

/-! ### Pending Calibration Set and activateStream
(Streaming.cpp 162-166, 195-291)

`_channelsToCal` is a `std::set<std::pair<int,size_t>>`; it is modelled
as a duplicate-free list (`insertPair` deduplicates exactly as
`std::set::emplace` does; the iteration order of the C++ set is by key,
which no claim depends on). -/

/-- Insertion into the pending-calibration set
(`_channelsToCal.emplace(direction, ch)`, Streaming.cpp 165). -/
def insertPair (s : List (Nat × Nat)) (p : Nat × Nat) : List (Nat × Nat) :=
  if p ∈ s then s else s ++ [p]

/-- Registration loop of `setupStream` (Streaming.cpp 162-166): every
configured channel of the call is inserted, paired with the call's
direction. -/
def setupCal (dir : Nat) (chans : List Nat) (s : List (Nat × Nat)) : List (Nat × Nat) :=
  chans.foldl (fun acc ch => insertPair acc (dir, ch)) s

/-- Drain loop of `activateStream` (Streaming.cpp 230-238): while the
set is nonempty, calibrate its first member (CalibrateRx or CalibrateTx
according to the stored direction) and erase it.  Returns the sequence
of calibration calls made and the final (empty) set. -/
def drainCal : List (Nat × Nat) → List (Nat × Nat) × List (Nat × Nat)
  | [] => ([], [])
  | p :: rest => (p :: (drainCal rest).1, (drainCal rest).2)

/-- Control-plane operations affecting the pending-calibration set. -/
inductive CalOp where
  | setup (dir : Nat) (chans : List Nat)
  | activate
  deriving Repr, DecidableEq

/-- Device trace: fold the control-plane operations over the
pending-calibration set, collecting every calibration call made (in
order).  Returns the final set and the calibration-call log. -/
def calTrace : List CalOp → List (Nat × Nat) → List (Nat × Nat) × List (Nat × Nat)
  | [], s => (s, [])
  | CalOp.setup d cs :: ops, s => calTrace ops (setupCal d cs s)
  | CalOp.activate :: ops, s =>
    let d := drainCal s
    let r := calTrace ops d.2
    (r.1, d.1 ++ r.2)

theorem drainCal_eq (s : List (Nat × Nat)) : drainCal s = (s, []) := by
  induction s with
  | nil => rfl
  | cons p rest ih => simp [drainCal, ih]

theorem mem_insertPair (s : List (Nat × Nat)) (p q : Nat × Nat) :
    q ∈ insertPair s p ↔ q ∈ s ∨ q = p := by
  unfold insertPair
  split
  · rename_i hmem
    constructor
    · exact Or.inl
    · rintro (h | rfl)
      · exact h
      · exact hmem
  · simp

theorem nodup_insertPair (s : List (Nat × Nat)) (p : Nat × Nat) (h : s.Nodup) :
    (insertPair s p).Nodup := by
  unfold insertPair
  split
  · exact h
  · rename_i hnm
    rw [List.nodup_append]
    exact ⟨h, List.nodup_singleton p, by
      intro a ha hb
      simp only [List.mem_singleton] at hb
      subst hb
      exact hnm ha⟩

theorem mem_setupCal (dir : Nat) (chans : List Nat) (s : List (Nat × Nat)) (q : Nat × Nat) :
    q ∈ setupCal dir chans s ↔ q ∈ s ∨ (q.1 = dir ∧ q.2 ∈ chans) := by
  induction chans generalizing s with
  | nil => simp [setupCal]
  | cons c cs ih =>
    simp only [setupCal, List.foldl_cons] at *
    rw [ih]
    rw [mem_insertPair]
    constructor
    · rintro ((h | rfl) | ⟨h1, h2⟩)
      · exact Or.inl h
      · exact Or.inr ⟨rfl, List.mem_cons_self c cs⟩
      · exact Or.inr ⟨h1, List.mem_cons_of_mem c h2⟩
    · rintro (h | ⟨h1, h2⟩)
      · exact Or.inl (Or.inl h)
      · rcases List.mem_cons.mp h2 with h | h
        · refine Or.inl (Or.inr ?_)
          rcases q with ⟨qa, qb⟩
          simp only at h1 h
          rw [h1, h]
        · exact Or.inr ⟨h1, h⟩

theorem nodup_setupCal (dir : Nat) (chans : List Nat) (s : List (Nat × Nat)) (h : s.Nodup) :
    (setupCal dir chans s).Nodup := by
  induction chans generalizing s with
  | nil => exact h
  | cons c cs ih => exact ih _ (nodup_insertPair s (dir, c) h)

theorem calTrace_setups (setups : List CalOp) (s : List (Nat × Nat))
    (hS : ∀ op ∈ setups, ∃ d cs, op = CalOp.setup d cs) :
    (calTrace setups s).2 = []
    ∧ (s.Nodup → (calTrace setups s).1.Nodup)
    ∧ ∀ q, (q ∈ (calTrace setups s).1 ↔ q ∈ s ∨
        ∃ op ∈ setups, ∃ cs, op = CalOp.setup q.1 cs ∧ q.2 ∈ cs) := by
  induction setups generalizing s with
  | nil =>
    refine ⟨rfl, fun h => h, ?_⟩
    intro q
    simp [calTrace]
  | cons op ops ih =>
    obtain ⟨d, cs, rfl⟩ := hS op (List.mem_cons_self op ops)
    have ih2 := ih (setupCal d cs s) (fun o ho => hS o (List.mem_cons_of_mem _ ho))
    refine ⟨ih2.1, ?_, ?_⟩
    · rw [show calTrace (CalOp.setup d cs :: ops) s = calTrace ops (setupCal d cs s) from rfl]
      intro h
      exact ih2.2.1 (nodup_setupCal d cs s h)
    · intro q
      rw [show calTrace (CalOp.setup d cs :: ops) s = calTrace ops (setupCal d cs s) from rfl]
      rw [ih2.2.2 q, mem_setupCal]
      constructor
      · rintro ((h | ⟨h1, h2⟩) | ⟨o, ho, cs2, heq, hc⟩)
        · exact Or.inl h
        · exact Or.inr ⟨CalOp.setup d cs, List.mem_cons_self _ _, cs, by rw [h1], h2⟩
        · exact Or.inr ⟨o, List.mem_cons_of_mem _ ho, cs2, heq, hc⟩
      · rintro (h | ⟨o, ho, cs2, heq, hc⟩)
        · exact Or.inl (Or.inl h)
        · rcases List.mem_cons.mp ho with rfl | ho2
          · have hinj := (CalOp.setup.injEq d cs q.1 cs2).mp heq
            exact Or.inl (Or.inr ⟨hinj.1.symm, hinj.2.symm ▸ hc⟩)
          · exact Or.inr ⟨o, ho2, cs2, heq, hc⟩

/-- Events emitted by `activateStream`, in program order: the
calibration calls of the drain loop (Streaming.cpp 230-238) followed by
the per-channel `ControlStream(id, true)` calls (282-288). -/
inductive ActEvent where
  | cal (dir ch : Nat)
  | enable (sid : Nat)
  deriving Repr, DecidableEq

/-- Enable loop of `activateStream` (Streaming.cpp 282-288): control
each underlying channel stream on in order; the first nonzero status
aborts with `SOAPY_SDR_STREAM_ERROR` (channels already enabled are left
as they are — no rollback).  Returns the status and the attempted
enable events in order. -/
def enableLoop (ctrl : Nat → Int) : List Nat → Int × List ActEvent
  | [] => (0, [])
  | sid :: rest =>
    if ctrl sid ≠ 0 then (SOAPY_SDR_STREAM_ERROR, [ActEvent.enable sid])
    else
      let p := enableLoop ctrl rest
      (p.1, ActEvent.enable sid :: p.2)

/-- Result of `activateStream`: `none` models the C++ throw on an
unconfigured hardware timestamp rate. -/
structure ActOut where
  result : Option Int
  ic : IConnectionStream
  cal : List (Nat × Nat)
  events : List ActEvent
  deriving Repr, DecidableEq

/-- The activation path (Streaming.cpp 195-291): throw if the hardware
timestamp rate is zero; drain the pending-calibration set; record the
pending command `{flags, timeNs, numElems, hasCmd := true}`
unconditionally (270-273); then, when not already enabled, run the
enable loop — on failure return `SOAPY_SDR_STREAM_ERROR` with `enabled`
still false, on success set `enabled := true` and return 0. -/
def activateStreamM (rate : ℚ) (ctrl : Nat → Int) (streamIDs : List Nat)
    (ic : IConnectionStream) (cal : List (Nat × Nat))
    (flags : SFlags) (timeNs : Int) (numElems : Nat) : ActOut :=
  if rate = 0 then ⟨none, ic, cal, []⟩
  else
    let calEvents := (drainCal cal).1.map (fun p => ActEvent.cal p.1 p.2)
    let ic1 : IConnectionStream :=
      { ic with flags := flags, timeNs := timeNs, numElems := numElems, hasCmd := true }
    if ic1.enabled then ⟨some 0, ic1, (drainCal cal).2, calEvents⟩
    else
      let p := enableLoop ctrl streamIDs
      if p.1 ≠ 0 then ⟨some SOAPY_SDR_STREAM_ERROR, ic1, (drainCal cal).2, calEvents ++ p.2⟩
      else ⟨some 0, { ic1 with enabled := true }, (drainCal cal).2, calEvents ++ p.2⟩

theorem calTrace_activates (acts : List CalOp)
    (hA : ∀ op ∈ acts, op = CalOp.activate) :
    calTrace acts [] = ([], []) := by
  induction acts with
  | nil => rfl
  | cons op ops ih =>
    have hop := hA op (List.mem_cons_self op ops)
    subst hop
    have := ih (fun o ho => hA o (List.mem_cons_of_mem _ ho))
    simp [calTrace, drainCal, this]

theorem calTrace_append (ops1 ops2 : List CalOp) (s : List (Nat × Nat)) :
    calTrace (ops1 ++ ops2) s
      = ((calTrace ops2 (calTrace ops1 s).1).1,
         (calTrace ops1 s).2 ++ (calTrace ops2 (calTrace ops1 s).1).2) := by
  induction ops1 generalizing s with
  | nil => simp [calTrace]
  | cons op ops ih =>
    cases op with
    | setup d cs =>
      simp only [List.cons_append, calTrace]
      exact ih (setupCal d cs s)
    | activate =>
      simp only [List.cons_append, calTrace, List.append_eq]
      rw [ih (drainCal s).2]
      simp [List.append_assoc]

/-- Number of occurrences of a `(direction, channel)` pair in a
calibration-call log. -/
def countPair (p : Nat × Nat) (l : List (Nat × Nat)) : Nat :=
  (l.filter (fun q => q = p)).length

theorem countPair_nil (p : Nat × Nat) : countPair p [] = 0 := rfl

theorem countPair_cons (p q : Nat × Nat) (t : List (Nat × Nat)) :
    countPair p (q :: t) = (if q = p then 1 else 0) + countPair p t := by
  unfold countPair
  rw [List.filter_cons]
  by_cases h : q = p
  · simp [h, Nat.add_comm]
  · simp [h]

theorem countPair_eq_zero (p : Nat × Nat) (l : List (Nat × Nat)) (h : p ∉ l) :
    countPair p l = 0 := by
  induction l with
  | nil => rfl
  | cons q t ih =>
    rw [countPair_cons]
    have hq : q ≠ p := fun he => h (he ▸ List.mem_cons_self q t)
    rw [if_neg hq, ih (fun hm => h (List.mem_cons_of_mem q hm))]

theorem countPair_pos (p : Nat × Nat) (l : List (Nat × Nat)) (h : 0 < countPair p l) :
    p ∈ l := by
  by_contra hnm
  rw [countPair_eq_zero p l hnm] at h
  exact absurd h (by norm_num)

theorem countPair_nodup (p : Nat × Nat) (l : List (Nat × Nat)) (h : l.Nodup) :
    countPair p l = if p ∈ l then 1 else 0 := by
  induction l with
  | nil => simp [countPair_nil]
  | cons q t ih =>
    rw [countPair_cons]
    rw [List.nodup_cons] at h
    rw [ih h.2]
    by_cases hq : q = p
    · subst hq
      rw [if_pos rfl, if_neg h.1, if_pos (List.mem_cons_self q t)]
    · rw [if_neg hq]
      by_cases hm : p ∈ t
      · rw [if_pos hm, if_pos (List.mem_cons_of_mem q hm)]
      · rw [if_neg hm, if_neg (by
          intro hc
          rcases List.mem_cons.mp hc with h1 | h1
          · exact hq h1.symm
          · exact hm h1)]

theorem enableLoop_events (ctrl : Nat → Int) (l : List Nat) :
    ∀ e ∈ (enableLoop ctrl l).2, ∃ sid, e = ActEvent.enable sid := by
  induction l with
  | nil => intro e he; simp [enableLoop] at he
  | cons sid rest ih =>
    intro e he
    unfold enableLoop at he
    split at he
    · simp only [List.mem_singleton] at he
      exact ⟨sid, he⟩
    · simp only [List.mem_cons] at he
      rcases he with rfl | he2
      · exact ⟨sid, rfl⟩
      · exact ih e he2

/-- C5: across any trace of `setupStream` registrations followed by any
number of `activateStream` drains, starting from the empty set created
at driver init, each `(direction, channel)` pair is calibrated at most
once; it is calibrated exactly once iff some setup of the trace
configured it; the set is empty afterwards; every calibration happens
during the first activation (later activations add no calls); and
within one (non-throwing) activation all calibration calls precede
every hardware-enable call. -/
theorem c5_calibrate_once (setups acts : List CalOp) (dir ch : Nat)
    (hS : ∀ op ∈ setups, ∃ d cs, op = CalOp.setup d cs)
    (hA : ∀ op ∈ acts, op = CalOp.activate)
    (hacts : acts ≠ []) :
    countPair (dir, ch) (calTrace (setups ++ acts) []).2 ≤ 1
    ∧ (countPair (dir, ch) (calTrace (setups ++ acts) []).2 = 1 ↔
        ∃ cs, CalOp.setup dir cs ∈ setups ∧ ch ∈ cs)
    ∧ (calTrace (setups ++ acts) []).1 = []
    ∧ (calTrace (setups ++ acts) []).2 = (calTrace (setups ++ [CalOp.activate]) []).2
    ∧ (∀ rate ctrl streamIDs ic cal flags timeNs numElems, rate ≠ 0 →
        ∃ evsE, (activateStreamM rate ctrl streamIDs ic cal flags timeNs numElems).events
            = cal.map (fun p => ActEvent.cal p.1 p.2) ++ evsE
          ∧ ∀ e ∈ evsE, ∃ sid, e = ActEvent.enable sid) := by
  obtain ⟨a0, arest, rfl⟩ : ∃ a0 arest, acts = a0 :: arest := by
    cases acts with
    | nil => exact absurd rfl hacts
    | cons a0 arest => exact ⟨a0, arest, rfl⟩
  have ha0 := hA a0 (List.mem_cons_self a0 arest)
  subst ha0
  have hsetups := calTrace_setups setups [] hS
  have harest : calTrace arest [] = ([], []) :=
    calTrace_activates arest (fun o ho => hA o (List.mem_cons_of_mem _ ho))
  -- both combined traces end with the empty set and log exactly the
  -- set accumulated by the setups
  have hboth : ∀ (tail : List CalOp), (∀ op ∈ tail, op = CalOp.activate) → tail ≠ [] →
      calTrace (setups ++ tail) [] = ([], (calTrace setups []).1) := by
    intro tail htail htne
    rw [calTrace_append]
    rw [hsetups.1]
    obtain ⟨t0, trest, rfl⟩ : ∃ t0 trest, tail = t0 :: trest := by
      cases tail with
      | nil => exact absurd rfl htne
      | cons t0 trest => exact ⟨t0, trest, rfl⟩
    have ht0 := htail t0 (List.mem_cons_self t0 trest)
    subst ht0
    have htrest : calTrace trest [] = ([], []) :=
      calTrace_activates trest (fun o ho => htail o (List.mem_cons_of_mem _ ho))
    simp [calTrace, drainCal_eq, htrest]
  have hmain := hboth (CalOp.activate :: arest) hA (by simp)
  have hone : calTrace (setups ++ [CalOp.activate]) [] = ([], (calTrace setups []).1) :=
    hboth [CalOp.activate] (by intro o ho; simpa using ho) (by simp)
  have hnodup : (calTrace setups []).1.Nodup := hsetups.2.1 List.nodup_nil
  have hmem : (dir, ch) ∈ (calTrace setups []).1 ↔
      ∃ cs, CalOp.setup dir cs ∈ setups ∧ ch ∈ cs := by
    rw [hsetups.2.2 (dir, ch)]
    constructor
    · rintro (h | ⟨op, hop, cs, rfl, hc⟩)
      · simp at h
      · exact ⟨cs, hop, hc⟩
    · rintro ⟨cs, hop, hc⟩
      exact Or.inr ⟨CalOp.setup dir cs, hop, cs, rfl, hc⟩
  have hlog : (calTrace (setups ++ CalOp.activate :: arest) []).2 = (calTrace setups []).1 := by
    rw [hmain]
  have hset : (calTrace (setups ++ CalOp.activate :: arest) []).1 = [] := by
    rw [hmain]
  have hlog1 : (calTrace (setups ++ [CalOp.activate]) []).2 = (calTrace setups []).1 := by
    rw [hone]
  refine ⟨?_, ?_, hset, by rw [hlog, hlog1], ?_⟩
  · rw [hlog, countPair_nodup _ _ hnodup]
    split <;> norm_num
  · rw [hlog, countPair_nodup _ _ hnodup]
    constructor
    · intro h1
      refine hmem.mp ?_
      by_contra hnm
      rw [if_neg hnm] at h1
      exact absurd h1 (by norm_num)
    · intro h
      rw [if_pos (hmem.mpr h)]
  · intro rate ctrl streamIDs ic cal flags tNs nE hrate
    unfold activateStreamM
    rw [if_neg hrate, drainCal_eq]
    simp only
    split
    · exact ⟨[], by simp, by simp⟩
    · split
      · refine ⟨(enableLoop ctrl streamIDs).2, rfl, ?_⟩
        exact enableLoop_events ctrl streamIDs
      · refine ⟨(enableLoop ctrl streamIDs).2, rfl, ?_⟩
        exact enableLoop_events ctrl streamIDs

/-- Witness for C5 at a concrete trace: two setups registering RX
channels 0 and 1 (channel 0 twice), then two activations. -/
theorem c5_calibrate_once_witness :
    (∀ op ∈ [CalOp.setup SOAPY_SDR_RX [0, 1], CalOp.setup SOAPY_SDR_RX [0]],
        ∃ d cs, op = CalOp.setup d cs)
    ∧ (∀ op ∈ [CalOp.activate, CalOp.activate], op = CalOp.activate)
    ∧ ([CalOp.activate, CalOp.activate] : List CalOp) ≠ []
    ∧ countPair (SOAPY_SDR_RX, 0) (calTrace ([CalOp.setup SOAPY_SDR_RX [0, 1],
          CalOp.setup SOAPY_SDR_RX [0]] ++ [CalOp.activate, CalOp.activate]) []).2 ≤ 1 := by
  refine ⟨?_, ?_, by simp, ?_⟩
  · intro op hop
    rcases List.mem_cons.mp hop with rfl | hop2
    · exact ⟨SOAPY_SDR_RX, [0, 1], rfl⟩
    · rcases List.mem_cons.mp hop2 with rfl | hop3
      · exact ⟨SOAPY_SDR_RX, [0], rfl⟩
      · simp at hop3
  · intro op hop
    rcases List.mem_cons.mp hop with rfl | hop2
    · rfl
    · rcases List.mem_cons.mp hop2 with rfl | hop3
      · rfl
      · simp at hop3
  · refine (c5_calibrate_once _ _ SOAPY_SDR_RX 0 ?_ ?_ (by simp)).1
    · intro op hop
      rcases List.mem_cons.mp hop with rfl | hop2
      · exact ⟨SOAPY_SDR_RX, [0, 1], rfl⟩
      · rcases List.mem_cons.mp hop2 with rfl | hop3
        · exact ⟨SOAPY_SDR_RX, [0], rfl⟩
        · simp at hop3
    · intro op hop
      rcases List.mem_cons.mp hop with rfl | hop2
      · rfl
      · rcases List.mem_cons.mp hop2 with rfl | hop3
        · rfl
        · simp at hop3

/-! ### readStreamStatus (Streaming.cpp 524-577)

The transport's `ReadStreamStatus` is modelled as a function from
(channel index, polling round) to the event observed there; the
wall-clock timeout of the C loop is modelled by a round budget (the
clock check runs once per full pass over the channels; the two-tier
sleep granularity only shapes real time and has no functional
content). -/

/-- One observation of `_conn->ReadStreamStatus`: a nonzero status
(with `GetLastError() == EPERM` distinguishing the unimplemented case),
or a filled metadata block. -/
inductive StEvent where
  | stErr (eperm : Bool)
  | stOk (md : StreamMetadata)
  deriving Repr, DecidableEq

/-- Dropped-packet suppression for TX streams (Streaming.cpp 550):
`metadata.packetDropped = false` when the stream direction is TX. -/
def suppressTx (dir : Nat) (md : StreamMetadata) : StreamMetadata :=
  if dir = SOAPY_SDR_TX then { md with packetDropped := false } else md

/-- Stop condition of the polling loop (Streaming.cpp 553): end of
burst, late timestamp, or (post-suppression) dropped packet. -/
def stopCond (dir : Nat) (md : StreamMetadata) : Bool :=
  (suppressTx dir md).endOfBurst || (suppressTx dir md).lateTimestamp
    || (suppressTx dir md).packetDropped

/-- Outcome of one pass of the inner `for(auto i : streamID)` loop. -/
inductive RoundRes where
  | ret (code : Int)
  | found (md : StreamMetadata)
  | pass
  deriving Repr, DecidableEq

/-- Inner polling pass (Streaming.cpp 539-555) from channel `c` with
`rem` channels left: a nonzero transport status returns immediately
(`SOAPY_SDR_NOT_SUPPORTED` on EPERM, else `SOAPY_SDR_TIMEOUT`); a
metadata block matching the stop condition jumps to `found:`; otherwise
the next channel is polled. -/
def pollChans (dir : Nat) (sched : Nat → Nat → StEvent) (r : Nat) : Nat → Nat → RoundRes
  | _, 0 => RoundRes.pass
  | c, rem+1 =>
    match sched c r with
    | StEvent.stErr eperm =>
      RoundRes.ret (if eperm then SOAPY_SDR_NOT_SUPPORTED else SOAPY_SDR_TIMEOUT)
    | StEvent.stOk md =>
      let md2 := suppressTx dir md
      if md2.endOfBurst || md2.lateTimestamp || md2.packetDropped then RoundRes.found md2
      else pollChans dir sched r (c+1) rem

/-- Outer loop of `readStreamStatus` (Streaming.cpp 537-576) starting
at round `r` with `maxR` rounds left before the wall clock expires:
each pass either returns a transport error, stops at `found:` — where
the return code is `SOAPY_SDR_TIME_ERROR` for a late timestamp, then
`SOAPY_SDR_OVERFLOW` for a dropped packet, else 0, with end-of-burst
and has-time reflected in the output flags (`flags` starts at 0) — or
sleeps and retries until the timeout yields `SOAPY_SDR_TIMEOUT`. -/
def statusRun (dir : Nat) (sched : Nat → Nat → StEvent) (nCh : Nat) : Nat → Nat → Int × SFlags
  | _, 0 => (SOAPY_SDR_TIMEOUT, noFlags)
  | r, maxR+1 =>
    match pollChans dir sched r 0 nCh with
    | RoundRes.ret code => (code, noFlags)
    | RoundRes.found md =>
      (if md.lateTimestamp then SOAPY_SDR_TIME_ERROR
       else if md.packetDropped then SOAPY_SDR_OVERFLOW
       else 0,
       ⟨md.hasTimestamp, md.endOfBurst, false⟩)
    | RoundRes.pass => statusRun dir sched nCh (r+1) maxR

theorem pollChans_found_dropped (dir : Nat) (sched : Nat → Nat → StEvent) (r : Nat) :
    ∀ rem c md, pollChans dir sched r c rem = RoundRes.found md →
      ∃ md0 c0, sched c0 r = StEvent.stOk md0 ∧ md = suppressTx dir md0 := by
  intro rem
  induction rem with
  | zero => intro c md h; exact absurd h (by simp [pollChans])
  | succ n ih =>
    intro c md h
    unfold pollChans at h
    revert h
    match hs : sched c r with
    | StEvent.stErr eperm => intro h; exact absurd h (by simp)
    | StEvent.stOk md0 =>
      simp only
      split
      · intro h
        rw [RoundRes.found.injEq] at h
        exact ⟨md0, c, hs, h.symm⟩
      · intro h
        exact ih (c+1) md h

theorem pollChans_ret_codes (dir : Nat) (sched : Nat → Nat → StEvent) (r : Nat) :
    ∀ rem c code, pollChans dir sched r c rem = RoundRes.ret code →
      code = SOAPY_SDR_NOT_SUPPORTED ∨ code = SOAPY_SDR_TIMEOUT := by
  intro rem
  induction rem with
  | zero => intro c code h; exact absurd h (by simp [pollChans])
  | succ n ih =>
    intro c code h
    unfold pollChans at h
    revert h
    match hs : sched c r with
    | StEvent.stErr eperm =>
      simp only
      intro h
      rw [RoundRes.ret.injEq] at h
      subst h
      by_cases he : eperm = true
      · rw [if_pos he]; exact Or.inl rfl
      · rw [if_neg he]; exact Or.inr rfl
    | StEvent.stOk md0 =>
      simp only
      split
      · intro h; exact absurd h (by simp)
      · intro h; exact ih (c+1) code h

theorem statusRun_tx_no_overflow (sched : Nat → Nat → StEvent) (nCh : Nat) :
    ∀ maxR r, (statusRun SOAPY_SDR_TX sched nCh r maxR).1 ≠ SOAPY_SDR_OVERFLOW := by
  intro maxR
  induction maxR with
  | zero =>
    intro r
    simp [statusRun, SOAPY_SDR_TIMEOUT, SOAPY_SDR_OVERFLOW]
  | succ n ih =>
    intro r
    unfold statusRun
    match hp : pollChans SOAPY_SDR_TX sched r 0 nCh with
    | RoundRes.ret code =>
      simp only
      rcases pollChans_ret_codes _ sched r nCh 0 code hp with rfl | rfl
      · simp [SOAPY_SDR_NOT_SUPPORTED, SOAPY_SDR_OVERFLOW]
      · simp [SOAPY_SDR_TIMEOUT, SOAPY_SDR_OVERFLOW]
    | RoundRes.found md =>
      obtain ⟨md0, c0, hs, rfl⟩ := pollChans_found_dropped _ sched r nCh 0 md hp
      by_cases hl : md0.lateTimestamp = true <;>
        norm_num [suppressTx, SOAPY_SDR_TX, hl, SOAPY_SDR_TIME_ERROR, SOAPY_SDR_OVERFLOW]
    | RoundRes.pass =>
      simp only
      exact ih (r+1)

/-- An observation at which the polling loop stops scanning: any
transport error, or metadata matching the stop condition. -/
def stopsAt (dir : Nat) (ev : StEvent) : Prop :=
  match ev with
  | StEvent.stErr _ => True
  | StEvent.stOk md => stopCond dir md = true

/-- Round-result produced at a stopping observation. -/
def stopRes (dir : Nat) (ev : StEvent) : RoundRes :=
  match ev with
  | StEvent.stErr eperm =>
    RoundRes.ret (if eperm then SOAPY_SDR_NOT_SUPPORTED else SOAPY_SDR_TIMEOUT)
  | StEvent.stOk md => RoundRes.found (suppressTx dir md)

theorem pollChans_first (dir : Nat) (sched : Nat → Nat → StEvent) (r C : Nat) :
    ∀ rem c, c ≤ C → C < c + rem →
      (∀ c2, c ≤ c2 → c2 < C →
        ∃ md, sched c2 r = StEvent.stOk md ∧ stopCond dir md = false) →
      stopsAt dir (sched C r) →
      pollChans dir sched r c rem = stopRes dir (sched C r) := by
  intro rem
  induction rem with
  | zero => intro c h1 h2 _ _; omega
  | succ n ih =>
    intro c h1 h2 hscan hstop
    by_cases hc : c = C
    · subst hc
      unfold pollChans
      revert hstop
      match hs : sched c r with
      | StEvent.stErr eperm => intro _; simp [stopRes]
      | StEvent.stOk md =>
        intro hstop
        simp only [stopsAt] at hstop
        simp only [stopRes]
        rw [if_pos (by
          unfold stopCond at hstop
          exact hstop)]
    · have hlt : c < C := lt_of_le_of_ne h1 hc
      obtain ⟨md, hmd, hns⟩ := hscan c (le_refl c) hlt
      unfold pollChans
      rw [hmd]
      simp only
      rw [if_neg (by
        unfold stopCond at hns
        simp [hns])]
      exact ih (c+1) hlt (by omega)
        (fun c2 hc2 hc2C => hscan c2 (by omega) hc2C) hstop

theorem pollChans_pass (dir : Nat) (sched : Nat → Nat → StEvent) (r : Nat) :
    ∀ rem c,
      (∀ c2, c ≤ c2 → c2 < c + rem →
        ∃ md, sched c2 r = StEvent.stOk md ∧ stopCond dir md = false) →
      pollChans dir sched r c rem = RoundRes.pass := by
  intro rem
  induction rem with
  | zero => intro c _; rfl
  | succ n ih =>
    intro c hscan
    obtain ⟨md, hmd, hns⟩ := hscan c (le_refl c) (by omega)
    unfold pollChans
    rw [hmd]
    simp only
    rw [if_neg (by
      unfold stopCond at hns
      simp [hns])]
    exact ih (c+1) (fun c2 hc2 hc2b => hscan c2 (by omega) (by omega))

theorem statusRun_first (dir : Nat) (sched : Nat → Nat → StEvent) (nCh R C : Nat)
    (hC : C < nCh)
    (hrow : ∀ c2, c2 < C → ∃ md, sched c2 R = StEvent.stOk md ∧ stopCond dir md = false)
    (hstop : stopsAt dir (sched C R)) :
    ∀ maxR r, r ≤ R → R < r + maxR →
      (∀ r2 c2, r ≤ r2 → r2 < R → c2 < nCh →
        ∃ md, sched c2 r2 = StEvent.stOk md ∧ stopCond dir md = false) →
      statusRun dir sched nCh r maxR =
        (match sched C R with
         | StEvent.stErr eperm =>
           ((if eperm then SOAPY_SDR_NOT_SUPPORTED else SOAPY_SDR_TIMEOUT), noFlags)
         | StEvent.stOk md0 =>
           (if (suppressTx dir md0).lateTimestamp then SOAPY_SDR_TIME_ERROR
            else if (suppressTx dir md0).packetDropped then SOAPY_SDR_OVERFLOW
            else 0,
            ⟨(suppressTx dir md0).hasTimestamp, (suppressTx dir md0).endOfBurst, false⟩)) := by
  intro maxR
  induction maxR with
  | zero => intro r h1 h2 _; omega
  | succ n ih =>
    intro r h1 h2 hpass
    by_cases hr : r = R
    · subst hr
      unfold statusRun
      rw [pollChans_first dir sched r C nCh 0 (by omega) (by omega)
        (fun c2 _ hc2C => hrow c2 hc2C) hstop]
      revert hstop
      match hs : sched C r with
      | StEvent.stErr eperm => intro _; simp [stopRes]
      | StEvent.stOk md0 => intro _; simp [stopRes]
    · have hlt : r < R := lt_of_le_of_ne h1 hr
      unfold statusRun
      rw [pollChans_pass dir sched r nCh 0
        (fun c2 _ hc2 => hpass r c2 (le_refl r) hlt (by omega))]
      simp only
      exact ih (r+1) hlt (by omega)
        (fun r2 c2 hr2 hr2R hc2 => hpass r2 c2 (by omega) hr2R hc2)

theorem statusRun_timeout (dir : Nat) (sched : Nat → Nat → StEvent) (nCh : Nat) :
    ∀ maxR r,
      (∀ r2 c2, r ≤ r2 → r2 < r + maxR → c2 < nCh →
        ∃ md, sched c2 r2 = StEvent.stOk md ∧ stopCond dir md = false) →
      statusRun dir sched nCh r maxR = (SOAPY_SDR_TIMEOUT, noFlags) := by
  intro maxR
  induction maxR with
  | zero => intro r _; rfl
  | succ n ih =>
    intro r hall
    unfold statusRun
    rw [pollChans_pass dir sched r nCh 0
      (fun c2 _ hc2 => hall r c2 (le_refl r) (by omega) (by omega))]
    simp only
    exact ih (r+1) (fun r2 c2 hr2 hr2b hc2 => hall r2 c2 (by omega) (by omega) hc2)

/-- C7: for every status poll — `statusRun dir sched nCh 0 maxR`, with
`(R, C)` the first stopping observation in round-then-channel scan
order — a TX stream never reports `SOAPY_SDR_OVERFLOW` (the transport's
dropped-packet flag is suppressed); a transport error at the stop point
returns `SOAPY_SDR_NOT_SUPPORTED` when it is the unimplemented (EPERM)
case and `SOAPY_SDR_TIMEOUT` otherwise; a stopping metadata block
returns `SOAPY_SDR_TIME_ERROR` when it includes a late timestamp, else
`SOAPY_SDR_OVERFLOW` when it includes a (non-suppressed) dropped
packet, else success 0, with end-of-burst and has-time copied into the
output flags; and if no observation up to the round budget stops the
scan the poll returns `SOAPY_SDR_TIMEOUT`. -/
theorem c7_readStreamStatus (dir : Nat) (sched : Nat → Nat → StEvent)
    (nCh maxR R C : Nat) (hC : C < nCh) (hR : R < maxR)
    (hpass : ∀ r2 c2, r2 < R → c2 < nCh →
      ∃ md, sched c2 r2 = StEvent.stOk md ∧ stopCond dir md = false)
    (hrow : ∀ c2, c2 < C →
      ∃ md, sched c2 R = StEvent.stOk md ∧ stopCond dir md = false) :
    (dir = SOAPY_SDR_TX → (statusRun dir sched nCh 0 maxR).1 ≠ SOAPY_SDR_OVERFLOW)
    ∧ (∀ eperm, sched C R = StEvent.stErr eperm →
        statusRun dir sched nCh 0 maxR
          = ((if eperm then SOAPY_SDR_NOT_SUPPORTED else SOAPY_SDR_TIMEOUT), noFlags))
    ∧ (∀ md0, sched C R = StEvent.stOk md0 → stopCond dir md0 = true →
        statusRun dir sched nCh 0 maxR
          = (if (suppressTx dir md0).lateTimestamp then SOAPY_SDR_TIME_ERROR
             else if (suppressTx dir md0).packetDropped then SOAPY_SDR_OVERFLOW
             else 0,
             ⟨md0.hasTimestamp, md0.endOfBurst, false⟩))
    ∧ ((∀ r2 c2, r2 < maxR → c2 < nCh →
          ∃ md, sched c2 r2 = StEvent.stOk md ∧ stopCond dir md = false) →
        statusRun dir sched nCh 0 maxR = (SOAPY_SDR_TIMEOUT, noFlags)) := by
  refine ⟨?_, ?_, ?_, ?_⟩
  · intro hdir
    subst hdir
    exact statusRun_tx_no_overflow sched nCh maxR 0
  · intro eperm hev
    have h := statusRun_first dir sched nCh R C hC hrow (by rw [hev]; trivial)
      maxR 0 (by omega) (by omega) (fun r2 c2 _ hr2 hc2 => hpass r2 c2 hr2 hc2)
    rw [h, hev]
  · intro md0 hev hsc
    have h := statusRun_first dir sched nCh R C hC hrow (by
        rw [hev]
        exact hsc)
      maxR 0 (by omega) (by omega) (fun r2 c2 _ hr2 hc2 => hpass r2 c2 hr2 hc2)
    rw [h, hev]
    have h1 : (suppressTx dir md0).hasTimestamp = md0.hasTimestamp := by
      unfold suppressTx
      split <;> rfl
    have h2 : (suppressTx dir md0).endOfBurst = md0.endOfBurst := by
      unfold suppressTx
      split <;> rfl
    simp [h1, h2]
  · intro hall
    exact statusRun_timeout dir sched nCh maxR 0
      (fun r2 c2 _ hr2 hc2 => hall r2 c2 (by omega) hc2)

/-- Concrete status schedule for the C7 witness: two RX channels, both
quiet in round 0; in round 1 channel 0 is quiet and channel 1 reports a
late timestamp. -/
def c7sched : Nat → Nat → StEvent :=
  fun c r =>
    if r = 0 then StEvent.stOk ⟨0, false, false, false, false⟩
    else if c = 0 then StEvent.stOk ⟨0, false, false, false, false⟩
    else StEvent.stOk ⟨77, true, false, true, false⟩

/-- Witness for C7 at a concrete input: the late-timestamp event at
round 1, channel 1 stops the scan and yields `SOAPY_SDR_TIME_ERROR`
with the has-time flag set. -/
theorem c7_readStreamStatus_witness :
    (1 : Nat) < 2 ∧ (1 : Nat) < 3
    ∧ statusRun SOAPY_SDR_RX c7sched 2 0 3
        = (if (suppressTx SOAPY_SDR_RX ⟨77, true, false, true, false⟩).lateTimestamp
             then SOAPY_SDR_TIME_ERROR
           else if (suppressTx SOAPY_SDR_RX ⟨77, true, false, true, false⟩).packetDropped
             then SOAPY_SDR_OVERFLOW
           else 0,
           ⟨true, false, false⟩) := by
  refine ⟨by norm_num, by norm_num, ?_⟩
  have h := (c7_readStreamStatus SOAPY_SDR_RX c7sched 2 3 1 1 (by norm_num) (by norm_num)
    (fun r2 c2 hr2 hc2 => by
      have hr0 : r2 = 0 := by omega
      subst hr0
      exact ⟨⟨0, false, false, false, false⟩, rfl, rfl⟩)
    (fun c2 hc2 => by
      have hc0 : c2 = 0 := by omega
      subst hc0
      exact ⟨⟨0, false, false, false, false⟩, rfl, rfl⟩)).2.2.1
  exact h ⟨77, true, false, true, false⟩ rfl rfl

/-! ### Multi-channel alignment engine (`_readStreamAligned`,
Streaming.cpp 334-398)

The transport's per-channel `ReadStream` is modelled by a schedule of
events consumed one per call: a timeout (status 0), an error (negative
status), or a delivery of up to `avail` consecutive samples whose first
sample carries hardware tick `md.timestamp` (consecutive samples carry
consecutive ticks — exactly the contract `_readStreamAligned` assumes
when it computes `expectedTime = requestTime + N`).  A delivery writes
`min(avail, requested)` sample ticks into the destination buffer; an
exhausted schedule behaves as a timeout (the transport blocks until the
timeout elapses).  A read whose requested count is zero — in the C code
a `numElems - N` underflow turned huge unsigned request, which the
transport can never fill — is modelled as reading zero elements, hence
a timeout return. -/

/-- One result of `_conn->ReadStream` on a channel. -/
inductive RdEvent where
  | rdTimeout
  | rdError
  | deliver (avail : Nat) (md : StreamMetadata)
  deriving Repr, DecidableEq

/-- State of `_readStreamAligned` at the head of the `for` loop:
per-channel destination buffers and fill counts, per-channel pending
transport events, the working reference time `requestTime`, the working
target `numElems`, the loop index `i`, and the metadata block `md`
(written by every transport read, by-reference in the C code).  `nCh`
is `streamID.size()`. -/
structure AlignState where
  nCh : Nat
  buffs : List Buff
  numWritten : List Nat
  scheds : List (List RdEvent)
  requestTime : Nat
  numElems : Nat
  i : Nat
  md : StreamMetadata

/-- Writing a delivered segment into a buffer: `k` sample ticks
starting at `t` at element offset `n`
(`buffs[i] + elemSize*N`, Streaming.cpp 351). -/
def writeSeg (b : Buff) (n t k : Nat) : Buff :=
  fun m => if n ≤ m ∧ m < n + k then t + (m - n) else b m

/-- Book-keeping after a successful read (Streaming.cpp 351-358):
record the metadata, write the segment, add the read count to the
channel's tally. -/
def alignWrite (st : AlignState) (N elemsRead : Nat) (mdIn : StreamMetadata) : AlignState :=
  { st with
    md := mdIn,
    buffs := st.buffs.set st.i
      (writeSeg (st.buffs.getD st.i bdef) N mdIn.timestamp elemsRead),
    numWritten := st.numWritten.set st.i (N + elemsRead) }

/-- The `updateHead` label (Streaming.cpp 391-393): adopt the segment's
timestamp as the new reference time and clamp the target length to what
was actually read. -/
def updateHead (st : AlignState) (ts elemsRead : Nat) : AlignState :=
  { st with requestTime := ts, numElems := elemsRead }

/-- The early-arrival branch (Streaming.cpp 367-377, case `prevN = 0`):
fast-forward the freshly read segment from its own head time up to the
requested time; when this is channel 0 and data remains, clamp the
target length so the other channels converge on the same length. -/
def alignEarly (st : AlignState) (ts : Nat) : AlignState :=
  if st.i = 0 ∧ (fastForward (st.buffs.getD st.i bdef)
      (st.numWritten.getD st.i 0) ts st.requestTime).2 ≠ 0 then
    { st with
      buffs := st.buffs.set st.i (fastForward (st.buffs.getD st.i bdef)
        (st.numWritten.getD st.i 0) ts st.requestTime).1,
      numWritten := st.numWritten.set st.i (fastForward (st.buffs.getD st.i bdef)
        (st.numWritten.getD st.i 0) ts st.requestTime).2,
      numElems := (fastForward (st.buffs.getD st.i bdef)
        (st.numWritten.getD st.i 0) ts st.requestTime).2 }
  else
    { st with
      buffs := st.buffs.set st.i (fastForward (st.buffs.getD st.i bdef)
        (st.numWritten.getD st.i 0) ts st.requestTime).1,
      numWritten := st.numWritten.set st.i (fastForward (st.buffs.getD st.i bdef)
        (st.numWritten.getD st.i 0) ts st.requestTime).2 }

/-- Fast-forward of the already-aligned channels `0..k-1` on an
overrun (Streaming.cpp 383-386). -/
def ffPriors (buffs : List Buff) (nw : List Nat) (rt ts : Nat) : Nat → List Buff × List Nat
  | 0 => (buffs, nw)
  | k+1 =>
    let p := ffPriors buffs nw rt ts k
    let q := fastForward (p.1.getD k bdef) (p.2.getD k 0) rt ts
    (p.1.set k q.1, p.2.set k q.2)

/-- The overrun branch (Streaming.cpp 381-389): fast-forward every
prior channel from the old reference time to the segment timestamp,
trim the current channel's buffer (whose head time, counted back from
the segment end, is `md.timestamp - prevN` on uint64) to start at the
segment timestamp, and restart the loop at channel 0. -/
def alignOverrun (st : AlignState) (prevN ts : Nat) : AlignState :=
  { st with
    buffs := (ffPriors st.buffs st.numWritten st.requestTime ts st.i).1.set st.i
      (fastForward (st.buffs.getD st.i bdef) (st.numWritten.getD st.i 0)
        (u64sub ts prevN) ts).1,
    numWritten := (ffPriors st.buffs st.numWritten st.requestTime ts st.i).2.set st.i
      (fastForward (st.buffs.getD st.i bdef) (st.numWritten.getD st.i 0)
        (u64sub ts prevN) ts).2,
    i := 0 }

/-- The `for` loop increment `i += (numWritten[i]==numElems)?1:0`
(Streaming.cpp 346), executed after every loop body, including after a
restart has set `i = 0`. -/
def alignInc (st : AlignState) : AlignState :=
  if st.numWritten.getD st.i 0 = st.numElems then { st with i := st.i + 1 } else st

/-- Result of one execution of the loop condition plus (when the
condition holds) loop body plus increment. -/
inductive StepRes where
  | done (status : Int) (st : AlignState)
  | next (st : AlignState)

/-- Dispatch on a delivered segment (Streaming.cpp 349-393): compute
`expectedTime = requestTime + numWritten[i]` and the read count — the
request size `numElems - N` is computed on `size_t`, so when an overrun
restart has left `numElems` below this channel's fill the request wraps
to a huge count and the transport answers with whatever is available;
only an exactly-full channel (or an empty transport) produces the
`status == 0` timeout — then branch — unspecified (zero) reference
time adopts the segment head (`goto updateHead`); an exact match
continues on the same channel; an early segment with prior data is a
non-monotonic-timestamp corruption, without prior data a fast-forward
(clamping the target on channel 0); a late segment fast-forwards every
prior channel, trims the current one, restarts at channel 0 and adopts
the new head.  Each outcome then runs the `for`-loop increment. -/
def alignDeliver (st : AlignState) (avail : Nat) (mdIn : StreamMetadata) : StepRes :=
  if min avail (u64sub st.numElems (st.numWritten.getD st.i 0)) = 0 then
    StepRes.done SOAPY_SDR_TIMEOUT { st with md := mdIn }
  else if st.requestTime = 0 then
    StepRes.next (alignInc (updateHead
      (alignWrite st (st.numWritten.getD st.i 0)
        (min avail (u64sub st.numElems (st.numWritten.getD st.i 0))) mdIn)
      mdIn.timestamp (min avail (u64sub st.numElems (st.numWritten.getD st.i 0)))))
  else if mdIn.timestamp = st.requestTime + st.numWritten.getD st.i 0 then
    StepRes.next (alignInc (alignWrite st (st.numWritten.getD st.i 0)
      (min avail (u64sub st.numElems (st.numWritten.getD st.i 0))) mdIn))
  else if mdIn.timestamp < st.requestTime + st.numWritten.getD st.i 0 then
    if st.numWritten.getD st.i 0 ≠ 0 then
      StepRes.done SOAPY_SDR_CORRUPTION (alignWrite st (st.numWritten.getD st.i 0)
        (min avail (u64sub st.numElems (st.numWritten.getD st.i 0))) mdIn)
    else
      StepRes.next (alignInc (alignEarly
        (alignWrite st (st.numWritten.getD st.i 0)
          (min avail (u64sub st.numElems (st.numWritten.getD st.i 0))) mdIn)
        mdIn.timestamp))
  else
    StepRes.next (alignInc (updateHead
      (alignOverrun
        (alignWrite st (st.numWritten.getD st.i 0)
          (min avail (u64sub st.numElems (st.numWritten.getD st.i 0))) mdIn)
        (st.numWritten.getD st.i 0) mdIn.timestamp)
      mdIn.timestamp (min avail (u64sub st.numElems (st.numWritten.getD st.i 0)))))

/-- Dispatch on the transport read result: status 0 is a timeout,
negative a stream error, positive a delivered segment. -/
def alignEv (st : AlignState) : RdEvent → StepRes
  | RdEvent.rdTimeout => StepRes.done SOAPY_SDR_TIMEOUT st
  | RdEvent.rdError => StepRes.done SOAPY_SDR_STREAM_ERROR st
  | RdEvent.deliver avail mdIn => alignDeliver st avail mdIn

/-- One iteration of `_readStreamAligned` (Streaming.cpp 346-394): exit
with the common count and `md.timestamp = requestTime` when every
channel has been passed; otherwise consume the current channel's next
transport event (an exhausted schedule is a timeout) and dispatch. -/
def alignBody (st : AlignState) : StepRes :=
  if st.nCh ≤ st.i then
    StepRes.done (Int.ofNat st.numElems)
      { st with md := { st.md with timestamp := st.requestTime } }
  else
    match (st.scheds.getD st.i []).head? with
    | none => StepRes.done SOAPY_SDR_TIMEOUT st
    | some ev =>
      alignEv { st with scheds := st.scheds.set st.i ((st.scheds.getD st.i []).tail) } ev

/-- Fuel-indexed run of the alignment loop; `none` when the fuel is
exhausted before the loop exits. -/
def alignLoop : Nat → AlignState → Option (Int × AlignState)
  | 0, _ => none
  | fuel+1, st =>
    match alignBody st with
    | StepRes.done s stF => some (s, stF)
    | StepRes.next st2 => alignLoop fuel st2

/-- Initial state of `_readStreamAligned` (Streaming.cpp 342-344):
`numWritten` all zeros, loop index 0, metadata default-initialised. -/
def alignInit (nCh : Nat) (buffs : List Buff) (scheds : List (List RdEvent))
    (requestTime numElems : Nat) : AlignState :=
  ⟨nCh, buffs, List.replicate nCh 0, scheds, requestTime, numElems, 0,
    ⟨0, false, false, false, false⟩⟩

/-! ### List access lemmas used by the alignment proofs -/

theorem getD_set_self {α : Type} (l : List α) (i : Nat) (a d : α) (h : i < l.length) :
    (l.set i a).getD i d = a := by
  induction l generalizing i with
  | nil => simp at h
  | cons x t ih =>
    cases i with
    | zero => rfl
    | succ n =>
      simp only [List.set_cons_succ, List.getD, List.getElem?_cons_succ]
      have := ih n (by simpa using h)
      simpa [List.getD] using this

theorem getD_set_ne {α : Type} (l : List α) (i j : Nat) (a d : α) (h : j ≠ i) :
    (l.set i a).getD j d = l.getD j d := by
  induction l generalizing i j with
  | nil => rfl
  | cons x t ih =>
    cases i with
    | zero =>
      cases j with
      | zero => exact absurd rfl h
      | succ m => rfl
    | succ n =>
      cases j with
      | zero => rfl
      | succ m =>
        simp only [List.set_cons_succ, List.getD, List.getElem?_cons_succ]
        have := ih n m (fun he => h (by rw [he]))
        simpa [List.getD] using this

theorem head?_mem {α : Type} {l : List α} {a : α} (h : l.head? = some a) : a ∈ l := by
  cases l with
  | nil => simp at h
  | cons x t =>
    simp only [List.head?_cons, Option.some.injEq] at h
    exact h ▸ List.mem_cons_self x t

theorem tail_mem {α : Type} {l : List α} {a : α} (h : a ∈ l.tail) : a ∈ l := by
  cases l with
  | nil => simp at h
  | cons x t => exact List.mem_cons_of_mem x h

/-! ### Transport-event well-formedness -/

/-- Transport-event well-formedness: hardware timestamps are nonzero
(tick 0 doubles as the "unspecified reference time" sentinel inside the
engine) and the delivered segment fits in the uint64 tick range. -/
def evWF : RdEvent → Prop
  | RdEvent.deliver avail md => 0 < md.timestamp ∧ md.timestamp + avail < 2 ^ 64
  | _ => True

/-- Well-formedness of all pending schedules. -/
def SchedWF (scheds : List (List RdEvent)) : Prop :=
  ∀ j, ∀ e ∈ scheds.getD j [], evWF e

theorem alignBody_exit (st : AlignState) (h : st.nCh ≤ st.i) :
    alignBody st = StepRes.done (Int.ofNat st.numElems)
      { st with md := { st.md with timestamp := st.requestTime } } := by
  unfold alignBody
  rw [if_pos h]

theorem alignBody_noEv (st : AlignState) (hni : ¬ st.nCh ≤ st.i)
    (hl : (st.scheds.getD st.i []).head? = none) :
    alignBody st = StepRes.done SOAPY_SDR_TIMEOUT st := by
  unfold alignBody
  rw [if_neg hni, hl]

theorem alignBody_some (st : AlignState) (ev : RdEvent) (hni : ¬ st.nCh ≤ st.i)
    (hl : (st.scheds.getD st.i []).head? = some ev) :
    alignBody st = alignEv
      { st with scheds := st.scheds.set st.i ((st.scheds.getD st.i []).tail) } ev := by
  unfold alignBody
  rw [if_neg hni, hl]

theorem inc_fields (st : AlignState) :
    (alignInc st).numWritten = st.numWritten ∧ (alignInc st).numElems = st.numElems
    ∧ (alignInc st).nCh = st.nCh ∧ (alignInc st).buffs = st.buffs
    ∧ (alignInc st).scheds = st.scheds ∧ (alignInc st).requestTime = st.requestTime
    ∧ (alignInc st).md = st.md := by
  unfold alignInc
  split <;> exact ⟨rfl, rfl, rfl, rfl, rfl, rfl, rfl⟩

/-! ### Observable projections of an alignment run -/

/-- Returned status of an alignment run. -/
def alignStatusOf (r : Option (Int × AlignState)) : Option Int := r.map (fun p => p.1)

/-- Returned metadata timestamp of an alignment run. -/
def alignTsOf (r : Option (Int × AlignState)) : Option Nat :=
  r.map (fun p => p.2.md.timestamp)

/-- Returned metadata has-timestamp flag of an alignment run. -/
def alignHasTsOf (r : Option (Int × AlignState)) : Option Bool :=
  r.map (fun p => p.2.md.hasTimestamp)

/-- Final fill count of channel `j` after an alignment run. -/
def alignNwOf (j : Nat) (r : Option (Int × AlignState)) : Option Nat :=
  r.map (fun p => p.2.numWritten.getD j 0)

/-- Final buffer cell `m` of channel `j` after an alignment run. -/
def alignBuffOf (j m : Nat) (r : Option (Int × AlignState)) : Option Nat :=
  r.map (fun p => (p.2.buffs.getD j bdef) m)

/-- Schedule of the C1 exhibit: channel 0 delivers 100 samples at
hardware tick 10 and later 5 at tick 200; channel 1 delivers 2 at tick
11 and 3 at tick 202.  Every timestamp is nonzero (never the
"unspecified reference time" sentinel) and every segment lies within
the uint64 tick range. -/
def c1bugSched : List (List RdEvent) :=
  [[RdEvent.deliver 100 ⟨10, true, false, false, false⟩,
    RdEvent.deliver 5 ⟨200, true, false, false, false⟩],
   [RdEvent.deliver 2 ⟨11, true, false, false, false⟩,
    RdEvent.deliver 3 ⟨202, true, false, false, false⟩]]

/-- C1: the claimed alignment guarantee of `_readStreamAligned`
(Streaming.cpp 334-398) fails in the code.  On this well-formed
schedule the run starts with `numElems = 100` at reference tick 10;
channel 1's overrun restarts the loop with `numElems = 2` while channel
0 already holds 99 samples, so the next read request `numElems - N`
(line 351, computed on `size_t`) underflows and wraps to a huge count;
the transport's partial answer (5 samples at tick 200) lets the loop
proceed, and it exits SUCCESSFULLY: status 5 with metadata timestamp
200 and both fill counts 5 — but channel 0's buffer begins at tick 200
while channel 1's still begins at tick 11.  The channel buffers do not
begin at an identical hardware timestamp on a successful return, even
though every delivered timestamp is nonzero and in range. -/
theorem c1_misaligned_read :
    SchedWF c1bugSched
    ∧ alignStatusOf (alignLoop 12 (alignInit 2 [bdef, bdef] c1bugSched 10 100)) = some 5
    ∧ alignTsOf (alignLoop 12 (alignInit 2 [bdef, bdef] c1bugSched 10 100)) = some 200
    ∧ alignNwOf 0 (alignLoop 12 (alignInit 2 [bdef, bdef] c1bugSched 10 100)) = some 5
    ∧ alignNwOf 1 (alignLoop 12 (alignInit 2 [bdef, bdef] c1bugSched 10 100)) = some 5
    ∧ alignBuffOf 0 0 (alignLoop 12 (alignInit 2 [bdef, bdef] c1bugSched 10 100)) = some 200
    ∧ alignBuffOf 1 0 (alignLoop 12 (alignInit 2 [bdef, bdef] c1bugSched 10 100)) = some 11
    ∧ alignBuffOf 1 0 (alignLoop 12 (alignInit 2 [bdef, bdef] c1bugSched 10 100))
        ≠ alignTsOf (alignLoop 12 (alignInit 2 [bdef, bdef] c1bugSched 10 100)) := by
  refine ⟨?_, rfl, rfl, rfl, rfl, rfl, rfl, ?_⟩
  · intro j e he
    match j with
    | 0 =>
      have he2 : e ∈ [RdEvent.deliver 100 ⟨10, true, false, false, false⟩,
          RdEvent.deliver 5 ⟨200, true, false, false, false⟩] := he
      simp only [List.mem_cons, List.not_mem_nil, or_false] at he2
      rcases he2 with rfl | rfl
      · exact ⟨by norm_num, by norm_num⟩
      · exact ⟨by norm_num, by norm_num⟩
    | 1 =>
      have he2 : e ∈ [RdEvent.deliver 2 ⟨11, true, false, false, false⟩,
          RdEvent.deliver 3 ⟨202, true, false, false, false⟩] := he
      simp only [List.mem_cons, List.not_mem_nil, or_false] at he2
      rcases he2 with rfl | rfl
      · exact ⟨by norm_num, by norm_num⟩
      · exact ⟨by norm_num, by norm_num⟩
    | n+2 =>
      have he2 : e ∈ ([] : List RdEvent) := he
      exact absurd he2 (by simp)
  · rw [show alignBuffOf 1 0 (alignLoop 12 (alignInit 2 [bdef, bdef] c1bugSched 10 100))
        = some 11 from rfl,
      show alignTsOf (alignLoop 12 (alignInit 2 [bdef, bdef] c1bugSched 10 100))
        = some 200 from rfl]
    simp

/-! ### readStream (Streaming.cpp 403-483)

The nanosecond/tick conversions `SoapySDR::timeNsToTicks` and
`SoapySDR::ticksToTimeNs` are floating-point computations on the
hardware rate; they are kept abstract as the function parameters `tnt`
and `ttn` (no claim depends on the numeric conversion itself).  The
busy wait on an absent command and the timeout bound are wall-clock
behaviour; functionally the path returns `SOAPY_SDR_TIMEOUT` leaving
all state untouched. -/

/-- Observable result of one `readStream` call: the returned status,
the in-out flags word after the call, the output time (set only on the
full path), and the post-call stream handle, buffers and transport
schedules. -/
structure ReadOut where
  status : Int
  flagsOut : SFlags
  timeNsOut : Option Int
  ic : IConnectionStream
  buffs : List Buff
  scheds : List (List RdEvent)

/-- Tail of `readStream` (Streaming.cpp 459-482): burst-budget
handling — clip the reported count to the remaining budget, decrement
it, and on exhaustion clear the command and mark end-of-burst — then
the output flags (`flags = 0`, then END_BURST and HAS_TIME from the
metadata) and the nanosecond timestamp. -/
def readStreamTail (ttn : Nat → Int) (ic : IConnectionStream) (stA : AlignState)
    (status : Int) : ReadOut :=
  if ic.numElems ≠ 0 then
    if ic.numElems - status.toNat = 0 then
      { status := Int.ofNat (min status.toNat ic.numElems),
        flagsOut := ⟨stA.md.hasTimestamp, true, false⟩,
        timeNsOut := some (ttn stA.md.timestamp),
        ic := { ic with numElems := 0, hasCmd := false },
        buffs := stA.buffs, scheds := stA.scheds }
    else
      { status := Int.ofNat (min status.toNat ic.numElems),
        flagsOut := ⟨stA.md.hasTimestamp, stA.md.endOfBurst, false⟩,
        timeNsOut := some (ttn stA.md.timestamp),
        ic := { ic with numElems := ic.numElems - status.toNat },
        buffs := stA.buffs, scheds := stA.scheds }
  else
    { status := Int.ofNat status.toNat,
      flagsOut := ⟨stA.md.hasTimestamp, stA.md.endOfBurst, false⟩,
      timeNsOut := some (ttn stA.md.timestamp),
      ic := ic, buffs := stA.buffs, scheds := stA.scheds }

/-- The read path (Streaming.cpp 403-483): an absent pending command
waits out the timeout and returns `SOAPY_SDR_TIMEOUT`; the one-packet
flag clips the request to the MTU; the command's tick time (0 when the
command has no HAS_TIME flag) seeds the Alignment Engine; a negative
alignment status returns unchanged; with HAS_TIME set and a timestamped
result, a commanded time earlier than the returned timestamp clears the
command and returns `SOAPY_SDR_TIME_ERROR`, a later one returns
`SOAPY_SDR_STREAM_ERROR` (alignment failure), and an equal one clears
the HAS_TIME flag for the next call; then the burst tail runs.  `none`
models alignment-fuel exhaustion. -/
def readStream (tnt : Int → Nat) (ttn : Nat → Int) (fuel : Nat)
    (ic : IConnectionStream) (buffs : List Buff) (scheds : List (List RdEvent))
    (numElemsArg : Nat) (flagsArg : SFlags) : Option ReadOut :=
  if ¬ ic.hasCmd then
    some ⟨SOAPY_SDR_TIMEOUT, flagsArg, none, ic, buffs, scheds⟩
  else
    match alignLoop fuel (alignInit ic.nChans buffs scheds
        (if ic.flags.hasTime then tnt ic.timeNs else 0)
        (if flagsArg.onePacket then min numElemsArg ic.elemMTU else numElemsArg)) with
    | none => none
    | some (status, stA) =>
      if status < 0 then
        some ⟨status, flagsArg, none, ic, stA.buffs, stA.scheds⟩
      else if ic.flags.hasTime ∧ stA.md.hasTimestamp then
        if (if ic.flags.hasTime then tnt ic.timeNs else 0) < stA.md.timestamp then
          some ⟨SOAPY_SDR_TIME_ERROR, flagsArg, none,
            { ic with hasCmd := false }, stA.buffs, stA.scheds⟩
        else if (if ic.flags.hasTime then tnt ic.timeNs else 0) ≠ stA.md.timestamp then
          some ⟨SOAPY_SDR_STREAM_ERROR, flagsArg, none, ic, stA.buffs, stA.scheds⟩
        else
          some (readStreamTail ttn
            { ic with flags := { ic.flags with hasTime := false } } stA status)
      else
        some (readStreamTail ttn ic stA status)

/-- Transport schedules that never flag end-of-burst (the RX transport
streams continuously; the burst flag on RX reads is produced by the
driver's budget logic, not the transport). -/
def NoEob (scheds : List (List RdEvent)) : Prop :=
  ∀ j, ∀ e ∈ scheds.getD j [], ∀ avail md, e = RdEvent.deliver avail md →
    md.endOfBurst = false

theorem noEob_pop (scheds : List (List RdEvent)) (i : Nat) (h : NoEob scheds) :
    NoEob (scheds.set i (scheds.getD i []).tail) := by
  intro j e he
  by_cases hlen : i < scheds.length
  · by_cases hij : j = i
    · subst hij
      rw [getD_set_self _ _ _ _ hlen] at he
      exact h j e (tail_mem he)
    · rw [getD_set_ne _ _ _ _ _ hij] at he
      exact h j e he
  · rw [List.set_eq_of_length_le (le_of_not_lt hlen)] at he
    exact h j e he

theorem alignEarly_md_scheds (st : AlignState) (ts : Nat) :
    (alignEarly st ts).md = st.md ∧ (alignEarly st ts).scheds = st.scheds := by
  unfold alignEarly
  split <;> exact ⟨rfl, rfl⟩

theorem alignDeliver_md_scheds (st : AlignState) (avail : Nat) (mdIn : StreamMetadata) :
    (∀ s st2, alignDeliver st avail mdIn = StepRes.done s st2 →
        st2.md = mdIn ∧ st2.scheds = st.scheds)
    ∧ (∀ st2, alignDeliver st avail mdIn = StepRes.next st2 →
        st2.md = mdIn ∧ st2.scheds = st.scheds) := by
  unfold alignDeliver
  by_cases h1 : min avail (u64sub st.numElems (st.numWritten.getD st.i 0)) = 0
  · rw [if_pos h1]
    constructor
    · intro s st2 h
      rw [StepRes.done.injEq] at h
      rw [← h.2]
      exact ⟨rfl, rfl⟩
    · intro st2 h
      exact absurd h (fun h2 => StepRes.noConfusion h2)
  rw [if_neg h1]
  by_cases h2 : st.requestTime = 0
  · rw [if_pos h2]
    constructor
    · intro s st2 h
      exact absurd h (fun h2 => StepRes.noConfusion h2)
    · intro st2 h
      rw [StepRes.next.injEq] at h
      rw [← h]
      rw [(inc_fields _).2.2.2.2.2.2, (inc_fields _).2.2.2.2.1]
      exact ⟨rfl, rfl⟩
  rw [if_neg h2]
  by_cases h3 : mdIn.timestamp = st.requestTime + st.numWritten.getD st.i 0
  · rw [if_pos h3]
    constructor
    · intro s st2 h
      exact absurd h (fun h2 => StepRes.noConfusion h2)
    · intro st2 h
      rw [StepRes.next.injEq] at h
      rw [← h]
      rw [(inc_fields _).2.2.2.2.2.2, (inc_fields _).2.2.2.2.1]
      exact ⟨rfl, rfl⟩
  rw [if_neg h3]
  by_cases h4 : mdIn.timestamp < st.requestTime + st.numWritten.getD st.i 0
  · rw [if_pos h4]
    by_cases h5 : st.numWritten.getD st.i 0 ≠ 0
    · rw [if_pos h5]
      constructor
      · intro s st2 h
        rw [StepRes.done.injEq] at h
        rw [← h.2]
        exact ⟨rfl, rfl⟩
      · intro st2 h
        exact absurd h (fun h2 => StepRes.noConfusion h2)
    · rw [if_neg h5]
      constructor
      · intro s st2 h
        exact absurd h (fun h2 => StepRes.noConfusion h2)
      · intro st2 h
        rw [StepRes.next.injEq] at h
        rw [← h]
        rw [(inc_fields _).2.2.2.2.2.2, (inc_fields _).2.2.2.2.1]
        rw [(alignEarly_md_scheds _ _).1, (alignEarly_md_scheds _ _).2]
        exact ⟨rfl, rfl⟩
  · rw [if_neg h4]
    constructor
    · intro s st2 h
      exact absurd h (fun h2 => StepRes.noConfusion h2)
    · intro st2 h
      rw [StepRes.next.injEq] at h
      rw [← h]
      rw [(inc_fields _).2.2.2.2.2.2, (inc_fields _).2.2.2.2.1]
      exact ⟨rfl, rfl⟩

theorem alignLoop_noEob (fuel : Nat) : ∀ (st : AlignState) (s : Int) (stF : AlignState),
    NoEob st.scheds → st.md.endOfBurst = false →
    alignLoop fuel st = some (s, stF) →
    NoEob stF.scheds ∧ stF.md.endOfBurst = false := by
  induction fuel with
  | zero =>
    intro st s stF _ _ hrun
    exact absurd hrun (by simp [alignLoop])
  | succ n ih =>
    intro st s stF hne hmd hrun
    have hrun2 : (match alignBody st with
        | StepRes.done a b => some (a, b)
        | StepRes.next c => alignLoop n c) = some (s, stF) := hrun
    -- facts about any step outcome
    have hbody : ∀ r, alignBody st = r →
        (∀ a b, r = StepRes.done a b → NoEob b.scheds ∧ b.md.endOfBurst = false)
        ∧ (∀ c, r = StepRes.next c → NoEob c.scheds ∧ c.md.endOfBurst = false) := by
      intro r hr
      by_cases hexit : st.nCh ≤ st.i
      · rw [alignBody_exit st hexit] at hr
        subst hr
        constructor
        · intro a b h
          rw [StepRes.done.injEq] at h
          rw [← h.2]
          exact ⟨hne, hmd⟩
        · intro c h
          exact absurd h (fun h2 => StepRes.noConfusion h2)
      · cases hl : (st.scheds.getD st.i []).head? with
        | none =>
          rw [alignBody_noEv st hexit hl] at hr
          subst hr
          constructor
          · intro a b h
            rw [StepRes.done.injEq] at h
            rw [← h.2]
            exact ⟨hne, hmd⟩
          · intro c h
            exact absurd h (fun h2 => StepRes.noConfusion h2)
        | some ev =>
          rw [alignBody_some st ev hexit hl] at hr
          subst hr
          have hnep : NoEob (st.scheds.set st.i ((st.scheds.getD st.i []).tail)) :=
            noEob_pop st.scheds st.i hne
          cases ev with
          | rdTimeout =>
            constructor
            · intro a b h
              have h2 : StepRes.done SOAPY_SDR_TIMEOUT _ = StepRes.done a b := h
              rw [StepRes.done.injEq] at h2
              rw [← h2.2]
              exact ⟨hnep, hmd⟩
            · intro c h
              exact absurd h (fun h2 => StepRes.noConfusion h2)
          | rdError =>
            constructor
            · intro a b h
              have h2 : StepRes.done SOAPY_SDR_STREAM_ERROR _ = StepRes.done a b := h
              rw [StepRes.done.injEq] at h2
              rw [← h2.2]
              exact ⟨hnep, hmd⟩
            · intro c h
              exact absurd h (fun h2 => StepRes.noConfusion h2)
          | deliver avail mdIn =>
            have hmdIn : mdIn.endOfBurst = false :=
              hne st.i (RdEvent.deliver avail mdIn) (head?_mem hl) avail mdIn rfl
            have hms := alignDeliver_md_scheds
              { st with scheds := st.scheds.set st.i ((st.scheds.getD st.i []).tail) }
              avail mdIn
            constructor
            · intro a b h
              have h2 := hms.1 a b h
              rw [h2.1, h2.2]
              exact ⟨hnep, hmdIn⟩
            · intro c h
              have h2 := hms.2 c h
              rw [h2.1, h2.2]
              exact ⟨hnep, hmdIn⟩
    cases hb : alignBody st with
    | done s2 stF2 =>
      rw [hb] at hrun2
      have hrun3 : some (s2, stF2) = some (s, stF) := hrun2
      rw [Option.some.injEq, Prod.mk.injEq] at hrun3
      have h := (hbody _ hb).1 s2 stF2 rfl
      rw [hrun3.2] at h
      exact h
    | next st2 =>
      rw [hb] at hrun2
      have hrun3 : alignLoop n st2 = some (s, stF) := hrun2
      have h := (hbody _ hb).2 st2 rfl
      exact ih st2 s stF h.1 h.2 hrun3

theorem readStreamTail_fields (ttn : Nat → Int) (ic : IConnectionStream)
    (stA : AlignState) (status : Int) :
    (readStreamTail ttn ic stA status).ic.flags = ic.flags
    ∧ (readStreamTail ttn ic stA status).scheds = stA.scheds := by
  unfold readStreamTail
  split
  · split <;> exact ⟨rfl, rfl⟩
  · exact ⟨rfl, rfl⟩

/-- One non-flagged `readStream` call in burst mode: HAS_TIME stays clear,
the schedule stays burst-free, an absent command returns `TIMEOUT`
untouched, and with a pending nonzero budget the call either fails
without touching the command state or reports `s ≤ budget` elements,
decrements the budget by `s`, clears the command exactly when the budget
hits zero, and raises `END_BURST` exactly then. -/
theorem burst_step (tnt : Int → Nat) (ttn : Nat → Int) (fuel : Nat)
    (ic : IConnectionStream) (buffs : List Buff) (scheds : List (List RdEvent))
    (k : Nat) (o : ReadOut)
    (hht : ic.flags.hasTime = false)
    (hne : NoEob scheds)
    (hrun : readStream tnt ttn fuel ic buffs scheds k ⟨false, false, false⟩ = some o) :
    o.ic.flags.hasTime = false
    ∧ NoEob o.scheds
    ∧ (ic.hasCmd = false →
        o.status = SOAPY_SDR_TIMEOUT ∧ o.ic = ic ∧ o.flagsOut.endBurst = false)
    ∧ (ic.hasCmd = true → ic.numElems ≠ 0 →
        (o.status < 0 ∧ o.ic = ic ∧ o.flagsOut.endBurst = false)
        ∨ (∃ s : Nat, o.status = Int.ofNat s ∧ s ≤ ic.numElems
            ∧ o.ic.numElems = ic.numElems - s
            ∧ (o.ic.hasCmd = true ↔ ic.numElems - s ≠ 0)
            ∧ (o.flagsOut.endBurst = true ↔ ic.numElems - s = 0)
            ∧ o.ic.flags = ic.flags)) := by
  unfold readStream at hrun
  cases hcmd : ic.hasCmd with
  | false =>
    rw [if_pos (by simp [hcmd])] at hrun
    rw [Option.some.injEq] at hrun
    subst hrun
    exact ⟨hht, hne, fun _ => ⟨rfl, rfl, rfl⟩, fun h _ => absurd h (by simp)⟩
  | true =>
    rw [if_neg (by simp [hcmd])] at hrun
    cases halign : alignLoop fuel (alignInit ic.nChans buffs scheds
        (if ic.flags.hasTime then tnt ic.timeNs else 0)
        (if (⟨false, false, false⟩ : SFlags).onePacket then min k ic.elemMTU else k)) with
    | none =>
      rw [halign] at hrun
      exact absurd hrun (by simp)
    | some p =>
      obtain ⟨status, stA⟩ := p
      rw [halign] at hrun
      have hstA : NoEob stA.scheds ∧ stA.md.endOfBurst = false :=
        alignLoop_noEob fuel _ status stA hne rfl halign
      have hrun2 : (if status < 0 then
          some (⟨status, ⟨false, false, false⟩, none, ic, stA.buffs, stA.scheds⟩ : ReadOut)
        else if ic.flags.hasTime ∧ stA.md.hasTimestamp then
          if (if ic.flags.hasTime then tnt ic.timeNs else 0) < stA.md.timestamp then
            some ⟨SOAPY_SDR_TIME_ERROR, ⟨false, false, false⟩, none,
              { ic with hasCmd := false }, stA.buffs, stA.scheds⟩
          else if (if ic.flags.hasTime then tnt ic.timeNs else 0) ≠ stA.md.timestamp then
            some ⟨SOAPY_SDR_STREAM_ERROR, ⟨false, false, false⟩, none, ic,
              stA.buffs, stA.scheds⟩
          else
            some (readStreamTail ttn
              { ic with flags := { ic.flags with hasTime := false } } stA status)
        else
          some (readStreamTail ttn ic stA status)) = some o := hrun
      by_cases hstat : status < 0
      · rw [if_pos hstat] at hrun2
        rw [Option.some.injEq] at hrun2
        subst hrun2
        exact ⟨hht, hstA.1, fun h => absurd h (by simp [hcmd]), fun _ _ => Or.inl ⟨hstat, rfl, rfl⟩⟩
      · rw [if_neg hstat, if_neg (by simp [hht])] at hrun2
        rw [Option.some.injEq] at hrun2
        subst hrun2
        refine ⟨?_, ?_, fun h => ?_, fun _ hR => ?_⟩
        · rw [(readStreamTail_fields ttn ic stA status).1]
          exact hht
        · rw [(readStreamTail_fields ttn ic stA status).2]
          exact hstA.1
        · exact absurd h (by simp [hcmd])
        · refine Or.inr ⟨min status.toNat ic.numElems, ?_⟩
          unfold readStreamTail
          rw [if_pos hR]
          by_cases hdone : ic.numElems - status.toNat = 0
          · rw [if_pos hdone]
            refine ⟨rfl, min_le_right _ _, ?_, ?_, ?_, rfl⟩
            · show (0 : Nat) = ic.numElems - min status.toNat ic.numElems
              omega
            · show false = true ↔ ic.numElems - min status.toNat ic.numElems ≠ 0
              simp only [Bool.false_eq_true, false_iff, not_not]
              omega
            · show true = true ↔ ic.numElems - min status.toNat ic.numElems = 0
              simp only [true_iff]
              omega
          · rw [if_neg hdone]
            refine ⟨rfl, min_le_right _ _, ?_, ?_, ?_, rfl⟩
            · show ic.numElems - status.toNat = ic.numElems - min status.toNat ic.numElems
              omega
            · show ic.hasCmd = true ↔ ic.numElems - min status.toNat ic.numElems ≠ 0
              rw [hcmd]
              simp only [true_iff]
              omega
            · show stA.md.endOfBurst = true ↔ ic.numElems - min status.toNat ic.numElems = 0
              rw [hstA.2]
              simp only [Bool.false_eq_true, false_iff]
              omega

/-- Total element count reported across a sequence of `readStream`
results (negative statuses contribute nothing). -/
def sumCounts (outs : List (Int × SFlags)) : Nat :=
  (outs.map (fun o => o.1.toNat)).sum

theorem sumCounts_cons (a : Int × SFlags) (l : List (Int × SFlags)) :
    sumCounts (a :: l) = a.1.toNat + sumCounts l := by
  simp [sumCounts]

/-- Successive `readStream` calls (one per requested size in `ks`),
threading the handle, buffers and transport schedules; returns the
(status, output flags) of each call and the final handle. -/
def runReads (tnt : Int → Nat) (ttn : Nat → Int) (fuel : Nat) :
    List Nat → IConnectionStream → List Buff → List (List RdEvent) →
    Option (List (Int × SFlags) × IConnectionStream)
  | [], ic, _, _ => some ([], ic)
  | k :: ks, ic, buffs, scheds =>
    match readStream tnt ttn fuel ic buffs scheds k ⟨false, false, false⟩ with
    | none => none
    | some o =>
      match runReads tnt ttn fuel ks o.ic o.buffs o.scheds with
      | none => none
      | some (outs, icF) => some ((o.status, o.flagsOut) :: outs, icF)

theorem burst_run_cons (K d : Nat) (out0 : Int × SFlags) (outs2 : List (Int × SFlags))
    (hd : out0.1.toNat = d) (hdK : d ≤ K)
    (heob0 : out0.2.endBurst = true ↔ (0 < K ∧ d = K))
    (hto : K = 0 → out0.1 = SOAPY_SDR_TIMEOUT)
    (hrec : ∀ pre out suf, outs2 = pre ++ out :: suf →
        ((out.2.endBurst = true ↔
          (sumCounts pre < K - d ∧ sumCounts pre + out.1.toNat = K - d))
         ∧ (K - d ≤ sumCounts pre → out.1 = SOAPY_SDR_TIMEOUT))) :
    ∀ pre out suf, out0 :: outs2 = pre ++ out :: suf →
        ((out.2.endBurst = true ↔
          (sumCounts pre < K ∧ sumCounts pre + out.1.toNat = K))
         ∧ (K ≤ sumCounts pre → out.1 = SOAPY_SDR_TIMEOUT)) := by
  intro pre out suf h
  cases pre with
  | nil =>
    rw [List.nil_append, List.cons.injEq] at h
    obtain ⟨h1, h2⟩ := h
    rw [← h1]
    have hs0 : sumCounts [] = 0 := rfl
    refine ⟨?_, fun hK => hto (by rw [hs0] at hK; omega)⟩
    rw [hs0, hd, heob0]
    omega
  | cons p pre2 =>
    rw [List.cons_append, List.cons.injEq] at h
    obtain ⟨h1, h2⟩ := h
    rw [← h1]
    have hr := hrec pre2 out suf h2
    have hsc : sumCounts (out0 :: pre2) = d + sumCounts pre2 := by
      rw [sumCounts_cons, hd]
    refine ⟨?_, fun hK => hr.2 (by rw [hsc] at hK; omega)⟩
    rw [hsc, hr.1]
    omega

theorem burst_run (tnt : Int → Nat) (ttn : Nat → Int) (fuel : Nat) :
    ∀ (ks : List Nat) (ic : IConnectionStream) (buffs : List Buff)
      (scheds : List (List RdEvent)) (outs : List (Int × SFlags))
      (icF : IConnectionStream),
    ic.flags.hasTime = false → NoEob scheds →
    (ic.hasCmd = true ↔ ic.numElems ≠ 0) →
    runReads tnt ttn fuel ks ic buffs scheds = some (outs, icF) →
    sumCounts outs + icF.numElems = ic.numElems
    ∧ (icF.hasCmd = true ↔ icF.numElems ≠ 0)
    ∧ ∀ pre out suf, outs = pre ++ out :: suf →
        ((out.2.endBurst = true ↔
          (sumCounts pre < ic.numElems ∧ sumCounts pre + out.1.toNat = ic.numElems))
         ∧ (ic.numElems ≤ sumCounts pre → out.1 = SOAPY_SDR_TIMEOUT)) := by
  intro ks
  induction ks with
  | nil =>
    intro ic buffs scheds outs icF hht hne hcb hrun
    have h : (some (([] : List (Int × SFlags)), ic) :
        Option (List (Int × SFlags) × IConnectionStream)) = some (outs, icF) := hrun
    rw [Option.some.injEq, Prod.mk.injEq] at h
    obtain ⟨h1, h2⟩ := h
    subst h2
    rw [← h1]
    refine ⟨by rw [show sumCounts [] = 0 from rfl]; omega, hcb, ?_⟩
    intro pre out suf h
    exact absurd h (by simp)
  | cons k ks ih =>
    intro ic buffs scheds outs icF hht hne hcb hrun
    have hrun1 : (match readStream tnt ttn fuel ic buffs scheds k ⟨false, false, false⟩ with
      | none => none
      | some o =>
        match runReads tnt ttn fuel ks o.ic o.buffs o.scheds with
        | none => none
        | some (outs2, icF2) => some ((o.status, o.flagsOut) :: outs2, icF2))
        = some (outs, icF) := hrun
    cases hread : readStream tnt ttn fuel ic buffs scheds k ⟨false, false, false⟩ with
    | none =>
      rw [hread] at hrun1
      exact absurd hrun1 (by simp)
    | some o =>
      rw [hread] at hrun1
      have hrun1b : (match runReads tnt ttn fuel ks o.ic o.buffs o.scheds with
        | none => none
        | some (outs2, icF2) => some ((o.status, o.flagsOut) :: outs2, icF2))
          = some (outs, icF) := hrun1
      have hstep := burst_step tnt ttn fuel ic buffs scheds k o hht hne hread
      cases hrec : runReads tnt ttn fuel ks o.ic o.buffs o.scheds with
      | none =>
        rw [hrec] at hrun1b
        exact absurd hrun1b (by simp)
      | some p =>
        obtain ⟨outs2, icF2⟩ := p
        rw [hrec] at hrun1b
        have hrun2 : some ((o.status, o.flagsOut) :: outs2, icF2) = some (outs, icF) := hrun1b
        rw [Option.some.injEq, Prod.mk.injEq] at hrun2
        obtain ⟨h1, h2⟩ := hrun2
        subst h2
        rw [← h1]
        by_cases hcmd : ic.hasCmd = true
        · have hR : ic.numElems ≠ 0 := hcb.mp hcmd
          cases hstep.2.2.2 hcmd hR with
          | inl herr =>
            have hih := ih o.ic o.buffs o.scheds outs2 icF2
              (by rw [herr.2.1]; exact hht) hstep.2.1 (by rw [herr.2.1]; exact hcb) hrec
            rw [herr.2.1] at hih
            have ht0 : o.status.toNat = 0 := by omega
            refine ⟨?_, hih.2.1, ?_⟩
            · rw [sumCounts_cons]
              show o.status.toNat + sumCounts outs2 + icF2.numElems = ic.numElems
              rw [ht0]
              omega
            · refine burst_run_cons ic.numElems 0 (o.status, o.flagsOut) outs2
                ht0 (Nat.zero_le _) ?_ (fun h => absurd h hR) ?_
              · show o.flagsOut.endBurst = true ↔ _
                rw [herr.2.2]
                simp only [Bool.false_eq_true, false_iff]
                omega
              · intro pre out suf hh
                have := hih.2.2 pre out suf hh
                exact this
          | inr hsucc =>
            obtain ⟨s, hs1, hs2, hs3, hs4, hs5, hs6⟩ := hsucc
            have hih := ih o.ic o.buffs o.scheds outs2 icF2
              (by rw [hs6]; exact hht) hstep.2.1 (by rw [hs3]; exact hs4) hrec
            rw [hs3] at hih
            have hts : o.status.toNat = s := by rw [hs1]; rfl
            refine ⟨?_, hih.2.1, ?_⟩
            · rw [sumCounts_cons]
              show o.status.toNat + sumCounts outs2 + icF2.numElems = ic.numElems
              rw [hts]
              omega
            · refine burst_run_cons ic.numElems s (o.status, o.flagsOut) outs2
                hts hs2 ?_ (fun h => absurd h hR) hih.2.2
              show o.flagsOut.endBurst = true ↔ _
              rw [hs5]
              omega
        · have hcf : ic.hasCmd = false := by
            revert hcmd
            cases ic.hasCmd <;> simp
          have hno := hstep.2.2.1 hcf
          have hne0 : ic.numElems = 0 := by
            by_contra hne0
            exact hcmd (hcb.mpr hne0)
          have hih := ih o.ic o.buffs o.scheds outs2 icF2
            (by rw [hno.2.1]; exact hht) hstep.2.1 (by rw [hno.2.1]; exact hcb) hrec
          rw [hno.2.1] at hih
          have ht0 : o.status.toNat = 0 := by rw [hno.1]; rfl
          refine ⟨?_, hih.2.1, ?_⟩
          · rw [sumCounts_cons]
            show o.status.toNat + sumCounts outs2 + icF2.numElems = ic.numElems
            rw [ht0]
            omega
          · refine burst_run_cons ic.numElems 0 (o.status, o.flagsOut) outs2
              ht0 (Nat.zero_le _) ?_ (fun _ => hno.1) hih.2.2
            show o.flagsOut.endBurst = true ↔ _
            rw [hno.2.2]
            simp only [Bool.false_eq_true, false_iff]
            omega

/-- C2: burst semantics of successive `readStream` calls (Streaming.cpp
459-473, 415-423).  Starting from an armed burst command with budget
`numElems` (no HAS_TIME) and a transport that never flags end-of-burst,
the per-call reported counts are clipped so that they sum with the
remaining budget to exactly the original budget (in particular, once
the command is cleared the counts sum to exactly the budget); the
command stays armed exactly while budget remains; END_BURST is raised
on exactly the call that completes the final element; and every call
issued after the budget is exhausted returns `SOAPY_SDR_TIMEOUT`. -/
theorem c2_burst (tnt : Int → Nat) (ttn : Nat → Int) (fuel : Nat)
    (ks : List Nat) (ic : IConnectionStream) (buffs : List Buff)
    (scheds : List (List RdEvent)) (outs : List (Int × SFlags))
    (icF : IConnectionStream)
    (hht : ic.flags.hasTime = false) (hne : NoEob scheds)
    (hcmd : ic.hasCmd = true) (hK : 0 < ic.numElems)
    (hrun : runReads tnt ttn fuel ks ic buffs scheds = some (outs, icF)) :
    sumCounts outs + icF.numElems = ic.numElems
    ∧ (icF.hasCmd = false → sumCounts outs = ic.numElems)
    ∧ (icF.hasCmd = true ↔ icF.numElems ≠ 0)
    ∧ ∀ pre out suf, outs = pre ++ out :: suf →
        ((out.2.endBurst = true ↔
          (sumCounts pre < ic.numElems ∧ sumCounts pre + out.1.toNat = ic.numElems))
         ∧ (ic.numElems ≤ sumCounts pre → out.1 = SOAPY_SDR_TIMEOUT)) := by
  have h := burst_run tnt ttn fuel ks ic buffs scheds outs icF hht hne
    ⟨fun _ => by omega, fun _ => hcmd⟩ hrun
  refine ⟨h.1, ?_, h.2.1, h.2.2⟩
  intro hF
  have h0 : icF.numElems = 0 := by
    by_contra hne0
    rw [h.2.1.mpr hne0] at hF
    exact absurd hF (by simp)
  omega

/-- Concrete burst handle for the C2 witness: one channel, budget 3. -/
def c2ic : IConnectionStream := ⟨1, 1, 4, 1024, true, true, ⟨false, false, false⟩, 0, 3⟩

/-- Transport schedule for the C2 witness: segments of 2 then 9
samples, neither flagged end-of-burst. -/
def c2sched : List (List RdEvent) :=
  [[RdEvent.deliver 2 ⟨10, true, false, false, false⟩,
    RdEvent.deliver 9 ⟨20, true, false, false, false⟩]]

theorem c2_burst_witness :
    ∃ outs icF,
      runReads (fun _ => 0) (fun n => (n : Int)) 8 [16, 16, 16] c2ic [bdef] c2sched
        = some (outs, icF)
      ∧ sumCounts outs + icF.numElems = c2ic.numElems
      ∧ (icF.hasCmd = false → sumCounts outs = c2ic.numElems)
      ∧ (icF.hasCmd = true ↔ icF.numElems ≠ 0)
      ∧ ∀ pre out suf, outs = pre ++ out :: suf →
          ((out.2.endBurst = true ↔
            (sumCounts pre < c2ic.numElems ∧ sumCounts pre + out.1.toNat = c2ic.numElems))
           ∧ (c2ic.numElems ≤ sumCounts pre → out.1 = SOAPY_SDR_TIMEOUT)) := by
  have hne : NoEob c2sched := by
    intro j e he avail md hdel
    cases j with
    | zero =>
      have he2 : e ∈ [RdEvent.deliver 2 ⟨10, true, false, false, false⟩,
          RdEvent.deliver 9 ⟨20, true, false, false, false⟩] := he
      simp only [List.mem_cons, List.not_mem_nil, or_false] at he2
      rcases he2 with rfl | rfl
      · injection hdel with h1 h2
        rw [← h2]
      · injection hdel with h1 h2
        rw [← h2]
    | succ n =>
      have he2 : e ∈ ([] : List RdEvent) := he
      exact absurd he2 (by simp)
  exact ⟨_, _, rfl, c2_burst (fun _ => 0) (fun n => (n : Int)) 8 [16, 16, 16] c2ic [bdef]
    c2sched _ _ rfl hne rfl (by decide) rfl⟩

theorem readStreamTail_status (ttn : Nat → Int) (ic : IConnectionStream)
    (stA : AlignState) (status : Int) :
    0 ≤ (readStreamTail ttn ic stA status).status := by
  unfold readStreamTail
  split
  · split
    · show (0 : Int) ≤ Int.ofNat (min status.toNat ic.numElems)
      exact Int.ofNat_nonneg _
    · show (0 : Int) ≤ Int.ofNat (min status.toNat ic.numElems)
      exact Int.ofNat_nonneg _
  · show (0 : Int) ≤ Int.ofNat status.toNat
    exact Int.ofNat_nonneg _

/-- C3: the HAS_TIME trichotomy (Streaming.cpp 436-457).  On a read
whose pending command carries HAS_TIME and whose aligned read succeeds
with a timestamped result: a commanded tick earlier than the returned
timestamp clears the command and returns `SOAPY_SDR_TIME_ERROR`; a
commanded tick later than the returned timestamp returns
`SOAPY_SDR_STREAM_ERROR` (alignment failure) with the handle untouched;
equal ticks clear only the HAS_TIME flag of the pending command and
return a non-negative count. -/
theorem c3_time_trichotomy (tnt : Int → Nat) (ttn : Nat → Int) (fuel : Nat)
    (ic : IConnectionStream) (buffs : List Buff) (scheds : List (List RdEvent))
    (k : Nat) (fl : SFlags) (o : ReadOut)
    (hcmd : ic.hasCmd = true)
    (hht : ic.flags.hasTime = true)
    (hrun : readStream tnt ttn fuel ic buffs scheds k fl = some o)
    (s : Int) (stA : AlignState)
    (halign : alignLoop fuel (alignInit ic.nChans buffs scheds (tnt ic.timeNs)
        (if fl.onePacket then min k ic.elemMTU else k)) = some (s, stA))
    (hs : 0 ≤ s)
    (hts : stA.md.hasTimestamp = true) :
    (tnt ic.timeNs < stA.md.timestamp →
        o.status = SOAPY_SDR_TIME_ERROR ∧ o.ic = { ic with hasCmd := false })
    ∧ (stA.md.timestamp < tnt ic.timeNs →
        o.status = SOAPY_SDR_STREAM_ERROR ∧ o.ic = ic)
    ∧ (tnt ic.timeNs = stA.md.timestamp →
        o.ic.flags = { ic.flags with hasTime := false } ∧ 0 ≤ o.status) := by
  unfold readStream at hrun
  rw [if_neg (by simp [hcmd])] at hrun
  have hcond : (if ic.flags.hasTime then tnt ic.timeNs else 0) = tnt ic.timeNs :=
    if_pos hht
  rw [hcond, halign] at hrun
  have hrun2 : (if s < 0 then
      some (⟨s, fl, none, ic, stA.buffs, stA.scheds⟩ : ReadOut)
    else if ic.flags.hasTime ∧ stA.md.hasTimestamp then
      if tnt ic.timeNs < stA.md.timestamp then
        some ⟨SOAPY_SDR_TIME_ERROR, fl, none, { ic with hasCmd := false },
          stA.buffs, stA.scheds⟩
      else if tnt ic.timeNs ≠ stA.md.timestamp then
        some ⟨SOAPY_SDR_STREAM_ERROR, fl, none, ic, stA.buffs, stA.scheds⟩
      else
        some (readStreamTail ttn
          { ic with flags := { ic.flags with hasTime := false } } stA s)
    else
      some (readStreamTail ttn ic stA s)) = some o := hrun
  rw [if_neg (by omega), if_pos ⟨hht, hts⟩] at hrun2
  refine ⟨fun hlt => ?_, fun hgt => ?_, fun heq => ?_⟩
  · rw [if_pos hlt, Option.some.injEq] at hrun2
    subst hrun2
    exact ⟨rfl, rfl⟩
  · rw [if_neg (by omega), if_pos (by omega), Option.some.injEq] at hrun2
    subst hrun2
    exact ⟨rfl, rfl⟩
  · rw [if_neg (by omega), if_neg (by omega), Option.some.injEq] at hrun2
    subst hrun2
    refine ⟨?_, readStreamTail_status ttn _ stA s⟩
    rw [(readStreamTail_fields ttn _ stA s).1]

/-- Concrete handle for the C3 witness: HAS_TIME command at tick 10. -/
def c3ic : IConnectionStream := ⟨1, 1, 4, 1024, true, true, ⟨true, false, false⟩, 10, 0⟩

/-- Transport schedule for the C3 witness: one segment at exactly the
commanded tick. -/
def c3sched : List (List RdEvent) :=
  [[RdEvent.deliver 16 ⟨10, true, false, false, false⟩]]

theorem c3_time_trichotomy_witness :
    ∃ o : ReadOut,
      readStream (fun t => t.toNat) (fun n => (n : Int)) 8 c3ic [bdef] c3sched 16
          ⟨false, false, false⟩ = some o
      ∧ o.ic.flags = { c3ic.flags with hasTime := false } ∧ 0 ≤ o.status := by
  have h := c3_time_trichotomy (fun t => t.toNat) (fun n => (n : Int)) 8 c3ic [bdef]
    c3sched 16 ⟨false, false, false⟩ _ rfl rfl rfl _ _ rfl (by decide) rfl
  exact ⟨_, rfl, h.2.2 rfl⟩

theorem alignLoop_error_head (fuel : Nat) (st : AlignState)
    (hni : ¬ st.nCh ≤ st.i)
    (hl : (st.scheds.getD st.i []).head? = some RdEvent.rdError) :
    alignLoop (fuel + 1) st = some (SOAPY_SDR_STREAM_ERROR,
      { st with scheds := st.scheds.set st.i ((st.scheds.getD st.i []).tail) }) := by
  have hb := alignBody_some st RdEvent.rdError hni hl
  have h0 : alignLoop (fuel + 1) st = (match alignBody st with
    | StepRes.done s stF => some (s, stF)
    | StepRes.next st2 => alignLoop fuel st2) := rfl
  rw [h0, hb]
  exact rfl

theorem readStream_error_first (tnt : Int → Nat) (ttn : Nat → Int) (fuel : Nat)
    (ic : IConnectionStream) (buffs : List Buff) (tl : List (List RdEvent))
    (k : Nat) (fl : SFlags)
    (hcmd : ic.hasCmd = true) (hn : 0 < ic.nChans) :
    readStream tnt ttn (fuel + 1) ic buffs ([RdEvent.rdError] :: tl) k fl
      = some ⟨SOAPY_SDR_STREAM_ERROR, fl, none, ic, buffs,
          ([] : List RdEvent) :: tl⟩ := by
  unfold readStream
  rw [if_neg (by simp [hcmd])]
  rw [alignLoop_error_head fuel (alignInit ic.nChans buffs ([RdEvent.rdError] :: tl)
    (if ic.flags.hasTime then tnt ic.timeNs else 0)
    (if fl.onePacket then min k ic.elemMTU else k))
    (by show ¬ ic.nChans ≤ 0; omega) rfl]
  exact rfl

/-- C10: an `activateStream` whose per-channel enable call fails
(Streaming.cpp 269-290) returns `SOAPY_SDR_STREAM_ERROR` with the
stream still not enabled, yet the pending command recorded before the
enable loop stays armed with the requested flags, time and count — so a
subsequent `readStream` (Streaming.cpp 415-423) does not take the
no-command timeout path but runs an aligned read against the
never-enabled stream (here: it consumes the transport's first event and
surfaces its error instead of returning the untouched-handle timeout). -/
theorem c10_activate_failure (rate : ℚ) (ctrl : Nat → Int) (streamIDs : List Nat)
    (ic : IConnectionStream) (cal : List (Nat × Nat)) (flags : SFlags)
    (timeNs : Int) (numElems : Nat)
    (hrate : rate ≠ 0) (hen : ic.enabled = false)
    (hfail : (enableLoop ctrl streamIDs).1 ≠ 0) :
    (activateStreamM rate ctrl streamIDs ic cal flags timeNs numElems).result
        = some SOAPY_SDR_STREAM_ERROR
    ∧ (activateStreamM rate ctrl streamIDs ic cal flags timeNs numElems).ic.enabled = false
    ∧ (activateStreamM rate ctrl streamIDs ic cal flags timeNs numElems).ic.hasCmd = true
    ∧ (activateStreamM rate ctrl streamIDs ic cal flags timeNs numElems).ic.flags = flags
    ∧ (activateStreamM rate ctrl streamIDs ic cal flags timeNs numElems).ic.timeNs = timeNs
    ∧ (activateStreamM rate ctrl streamIDs ic cal flags timeNs numElems).ic.numElems = numElems
    ∧ ∀ (tnt : Int → Nat) (ttn : Nat → Int) (fuel : Nat) (buffs : List Buff)
        (tl : List (List RdEvent)) (k : Nat) (fl : SFlags),
        0 < ic.nChans →
        readStream tnt ttn (fuel + 1)
            (activateStreamM rate ctrl streamIDs ic cal flags timeNs numElems).ic
            buffs ([RdEvent.rdError] :: tl) k fl
          = some ⟨SOAPY_SDR_STREAM_ERROR, fl, none,
              (activateStreamM rate ctrl streamIDs ic cal flags timeNs numElems).ic,
              buffs, ([] : List RdEvent) :: tl⟩ := by
  have hout : activateStreamM rate ctrl streamIDs ic cal flags timeNs numElems
      = ⟨some SOAPY_SDR_STREAM_ERROR,
         { ic with flags := flags, timeNs := timeNs, numElems := numElems, hasCmd := true },
         (drainCal cal).2,
         ((drainCal cal).1.map (fun p => ActEvent.cal p.1 p.2))
           ++ (enableLoop ctrl streamIDs).2⟩ := by
    unfold activateStreamM
    rw [if_neg hrate]
    have h1 : ¬ (({ ic with flags := flags, timeNs := timeNs, numElems := numElems, hasCmd := true } : IConnectionStream).enabled = true) := by
      show ¬ (ic.enabled = true)
      rw [hen]
      simp
    rw [if_neg h1, if_pos hfail]
  rw [hout]
  refine ⟨rfl, hen, rfl, rfl, rfl, rfl, ?_⟩
  intro tnt ttn fuel buffs tl k fl hn
  exact readStream_error_first tnt ttn fuel _ buffs tl k fl rfl hn

theorem c10_activate_failure_witness :
    (1 : ℚ) ≠ 0
    ∧ (enableLoop (fun _ => -1) [7]).1 ≠ 0
    ∧ (activateStreamM 1 (fun _ => -1) [7]
          ⟨1, 1, 4, 1024, false, false, ⟨false, false, false⟩, 0, 0⟩ []
          ⟨false, false, false⟩ 0 3).result = some SOAPY_SDR_STREAM_ERROR
    ∧ (activateStreamM 1 (fun _ => -1) [7]
          ⟨1, 1, 4, 1024, false, false, ⟨false, false, false⟩, 0, 0⟩ []
          ⟨false, false, false⟩ 0 3).ic.hasCmd = true
    ∧ readStream (fun _ => 0) (fun n => (n : Int)) 4
          (activateStreamM 1 (fun _ => -1) [7]
            ⟨1, 1, 4, 1024, false, false, ⟨false, false, false⟩, 0, 0⟩ []
            ⟨false, false, false⟩ 0 3).ic
          [bdef] [[RdEvent.rdError]] 16 ⟨false, false, false⟩
        = some ⟨SOAPY_SDR_STREAM_ERROR, ⟨false, false, false⟩, none,
            (activateStreamM 1 (fun _ => -1) [7]
              ⟨1, 1, 4, 1024, false, false, ⟨false, false, false⟩, 0, 0⟩ []
              ⟨false, false, false⟩ 0 3).ic,
            [bdef], [([] : List RdEvent)]⟩ := by
  have h := c10_activate_failure 1 (fun _ => -1) [7]
    ⟨1, 1, 4, 1024, false, false, ⟨false, false, false⟩, 0, 0⟩ []
    ⟨false, false, false⟩ 0 3 (by norm_num) rfl (by decide)
  exact ⟨by norm_num, by decide, h.1, h.2.2.1,
    h.2.2.2.2.2.2 (fun _ => 0) (fun n => (n : Int)) 3 [bdef] [] 16
      ⟨false, false, false⟩ (by decide)⟩

end LimeStreaming
